import Mathlib

/-!
# Verification of the kappybara site-graph rewriting engine

A shallow embedding, in Lean 4, of the parts of the kappybara simulator that
the specification's claims are about:

* `src/kappybara/utils.py` — `rejection_sample`, `Counted`, `OrderedSet`;
* `src/kappybara/rule.py` — the duplicated `rejection_sample`, the
  `KappaRule` variants (`n_embeddings`, `select`);
* `src/kappybara/pattern.py` — `Site.embeds_in`, `Pattern.__init__` bond
  resolution, `Agent.detached`;
* `src/kappybara/indexed_set.py` — the positional index of `IndexedSet`;
* `src/kappybara/mixture.py` — `Mixture.find_embeddings`,
  `Mixture.apply_update`, `MixtureUpdate.remove_agent`;
* `src/kappybara/system.py` — `System.apply_rule`.

Python mutable objects are modelled functionally: object identity becomes an
explicit numeric id, the object heap becomes an association list from id to
data, and methods become state-passing functions.  Methods that can raise
return `Except String`.  Calls into the pseudo-random number generator are
modelled by threading an explicit stream of draws (natural numbers reduced
modulo the size of the population being sampled), so that every theorem
quantifies over all possible random choices.
-/

namespace Kappybara

/-! ## Python object identity (`utils.Counted`, `id()`)

`rejection_sample` compares elements *by identity* (`id(x)`), and the
`Counted` base class implements `__hash__` as the creation id and `__eq__` as
equality of hashes.  A `PyObj` models an arbitrary Python object as far as
those operations can observe it: `oid` is the CPython object identity, and
`intVal` is `some n` when the object is the integer `n` (only an integer can
compare equal (`==`) to the integer ids stored in an exclusion set; an
`Embedding`, agent, or any other non-integer object never does). -/

structure PyObj where
  oid : Nat
  intVal : Option Int := none
deriving DecidableEq, Repr

/-- Python `x in s` where `s` is a set of integer ids and `x` a `PyObj`:
membership is decided by `==`, so it holds only when `x` is itself an integer
equal to one of the ids. -/
def pyMemIntSet (x : PyObj) (ids : List Nat) : Bool :=
  match x.intVal with
  | some v => ids.any (fun oid => (oid : Int) == v)
  | none => false

/-! ## `rejection_sample` — utils.py lines 36-52

```python
def rejection_sample(population, excluded, max_attempts=100):
    population = list(population)
    if not population:
        raise ValueError("Sequence is empty")
    excluded_ids = set(id(x) for x in excluded)
    for _ in range(max_attempts):
        choice = random.choice(population)
        if id(choice) not in excluded_ids:
            return choice
    valid_choices = [item for item in population if id(item) not in excluded_ids]
    if not valid_choices:
        raise ValueError("No valid elements to choose from")
    return random.choice(valid_choices)
```

The fast phase consumes one PRNG draw per attempt; `draws` lists those draws
(its length plays the role of `max_attempts`) and `dFallback` is the draw used
by the final `random.choice(valid_choices)`. -/

def utilsFastPhase (population : List PyObj) (excludedIds : List Nat) :
    List Nat → Option PyObj
  | [] => none
  | d :: ds =>
    let choice := population.getD (d % population.length) ⟨0, none⟩
    if choice.oid ∈ excludedIds then utilsFastPhase population excludedIds ds
    else some choice

def rejection_sample (population excluded : List PyObj) (draws : List Nat)
    (dFallback : Nat) : Except String PyObj :=
  if population.isEmpty then .error "Sequence is empty"
  else
    let excludedIds := excluded.map (·.oid)
    match utilsFastPhase population excludedIds draws with
    | some choice => .ok choice
    | none =>
      let validChoices := population.filter (fun item => !(item.oid ∈ excludedIds : Bool))
      if validChoices.isEmpty then .error "No valid elements to choose from"
      else .ok (validChoices.getD (dFallback % validChoices.length) ⟨0, none⟩)

/-! ## `rejection_sample` — rule.py lines 373-391

```python
def rejection_sample(population, exclude, max_attempts=100):
    pop_ordered = list(population)
    exclude_set = set(id(x) for x in exclude)
    n = len(pop_ordered)
    if n == 0:
        raise ValueError("Sequence is empty")
    for _ in range(max_attempts):
        idx = random.randrange(n)
        if id(pop_ordered[idx]) not in exclude_set:
            return pop_ordered[idx]
    valid_indices = [i for i, elem in enumerate(pop_ordered) if elem not in exclude_set]
    if not valid_indices:
        raise ValueError("No valid elements to choose from")
    return pop_ordered[random.choice(valid_indices)]
```

Note the fallback filter tests `elem not in exclude_set`, comparing the
*element itself* (with `==`) against a set of integer `id()` values, which is
`pyMemIntSet`; the fast phase correctly tests `id(pop_ordered[idx])`. -/

def ruleFastPhase (popOrdered : List PyObj) (excludeSet : List Nat) :
    List Nat → Option PyObj
  | [] => none
  | d :: ds =>
    let choice := popOrdered.getD (d % popOrdered.length) ⟨0, none⟩
    if choice.oid ∈ excludeSet then ruleFastPhase popOrdered excludeSet ds
    else some choice

def rejection_sample_rule (population exclude : List PyObj) (draws : List Nat)
    (dFallback : Nat) : Except String PyObj :=
  let popOrdered := population
  let excludeSet := exclude.map (·.oid)
  if popOrdered.length == 0 then .error "Sequence is empty"
  else
    match ruleFastPhase popOrdered excludeSet draws with
    | some choice => .ok choice
    | none =>
      let validIndices :=
        (List.range popOrdered.length).filter
          (fun i => !(pyMemIntSet (popOrdered.getD i ⟨0, none⟩) excludeSet))
      if validIndices.isEmpty then .error "No valid elements to choose from"
      else .ok (popOrdered.getD
          (validIndices.getD (dFallback % validIndices.length) 0) ⟨0, none⟩)

/-! ## pattern.py — the `Counted`-based pattern layer

`Site.embeds_in` (lines 75-96) only ever dereferences a concrete partner
`Site` through its `label` and its owning agent's `type`, so a partner
reference is modelled as a view carrying exactly those two attributes. -/

/-- The `partner` field of a pattern.py `Site`.  The string sentinels of the
source ("." empty, "#" wildcard, "?" undetermined, "_" bound) become
constructors; `siteType` is a `SiteType` named tuple; `ref` stands for a
concrete `Site` cross-reference, recording the referenced site's `label` and
its owning agent's `type`; `link` is a pattern-time integer bond label. -/
inductive PartnerV where
  | empty
  | wildcard
  | undet
  | boundAny
  | siteType (siteName agentName : String)
  | ref (partnerLabel partnerAgentType : String)
  | link (n : Int)
deriving DecidableEq, Repr

/-- `Site.coupled`: the partner is a concrete `Site` reference. -/
def PartnerV.isCoupled : PartnerV → Bool
  | .ref _ _ => true
  | _ => false

/-- `Site.bound`: `partner == "_" or isinstance(partner, SiteType) or
isinstance(partner, Site)`. -/
def PartnerV.isBound : PartnerV → Bool
  | .boundAny => true
  | .siteType _ _ => true
  | .ref _ _ => true
  | _ => false

structure SiteV where
  label : String
  state : String
  partner : PartnerV
deriving DecidableEq, Repr

/-- `Site.stated`: the internal state is a concrete tag, not "#" or "?". -/
def SiteV.stated (s : SiteV) : Bool :=
  !(s.state == "#") && !(s.state == "?")

/-- `Site.embeds_in` (pattern.py lines 75-96):

```python
def embeds_in(self, other):
    if (self.stated and self.state != other.state) or (
        self.bound and not other.coupled
    ):
        return False
    match self.partner:
        case ".":
            return other.partner == "."
        case SiteType():
            return (
                self.partner.site_name == other.partner.label
                and self.partner.agent_name == other.partner.agent.type
            )
        case Site():
            return (
                self.partner.agent.type == other.partner.agent.type
                and self.label == other.label
            )
    return True
```

In the `SiteType()` and `Site()` arms the initial guard has already ensured
`other.coupled`, so dereferencing `other.partner` cannot fail; the model
returns `false` in the corresponding unreachable branches. -/
def SiteV.embeds_in (p c : SiteV) : Bool :=
  if (p.stated && !(p.state == c.state)) || (p.partner.isBound && !c.partner.isCoupled) then
    false
  else
    match p.partner with
    | .empty => c.partner == .empty
    | .siteType sn an =>
      match c.partner with
      | .ref cl ct => sn == cl && an == ct
      | _ => false
    | .ref _ pt =>
      match c.partner with
      | .ref _ ct => pt == ct && p.label == c.label
      | _ => false
    | _ => true

/-- C6's reading of the predicate semantics, written from the spec's words
(for refinement comparison only): for a concrete pattern-site partner it
demands that `c.partner` be a concrete site *whose label equals `p.label`*
and whose owning agent's type equals the pattern partner's agent's type. -/
def SiteV.claimSemantics (p c : SiteV) : Bool :=
  (if p.stated then p.state == c.state else true) &&
  match p.partner with
  | .empty => c.partner == .empty
  | .wildcard => true
  | .undet => true
  | .boundAny => c.partner.isCoupled
  | .siteType sn an =>
    match c.partner with
    | .ref cl ct => sn == cl && an == ct
    | _ => false
  | .ref _ pt =>
    match c.partner with
    | .ref cl ct => cl == p.label && ct == pt
    | _ => false
  | .link _ => true

/-- The amended semantics: identical to `claimSemantics` except that for a
concrete pattern-site partner it is the *matched site's own* label (not the
concrete partner's label) that must equal `p.label` — which is what the code
checks. -/
def SiteV.amendedSemantics (p c : SiteV) : Bool :=
  (if p.stated then p.state == c.state else true) &&
  match p.partner with
  | .empty => c.partner == .empty
  | .wildcard => true
  | .undet => true
  | .boundAny => c.partner.isCoupled
  | .siteType sn an =>
    match c.partner with
    | .ref cl ct => sn == cl && an == ct
    | _ => false
  | .ref _ pt =>
    match c.partner with
    | .ref _ ct => ct == pt && c.label == p.label
    | _ => false
  | .link _ => true

/-! ## Pattern.__init__ — integer bond-id resolution (pattern.py lines 370-398)

Sites are identified by their position: slot index in the pattern and label
within the agent (agent interfaces are label-keyed dictionaries, so labels
are unique within an agent). -/

/-- The partner field of a site during pattern construction; `ref` is a
resolved cross-reference to the site at the given (slot, label) position. -/
inductive PPartner where
  | sym (s : String)
  | siteType (sn an : String)
  | link (n : Int)
  | ref (slot : Nat) (label : String)
deriving DecidableEq, Repr

structure PSite where
  label : String
  state : String
  partner : PPartner
deriving DecidableEq, Repr

structure PAgent where
  type : String
  sites : List PSite
deriving DecidableEq, Repr

/-- All integer bond labels in the pattern, each paired with the location of
the site carrying it, in the iteration order of `Pattern.__init__` (agents in
slot order, sites in interface order). -/
def patternIntLinks (agents : List (Option PAgent)) : List (Int × Nat × String) :=
  (agents.enum.map fun p =>
    match p.2 with
    | none => []
    | some ag =>
      ag.sites.filterMap fun s =>
        match s.partner with
        | .link n => some (n, p.1, s.label)
        | _ => none).flatten

/-- The keys of the `integer_links` defaultdict in insertion order (first
occurrence order). -/
def keysInOrder : List Int → List Int
  | [] => []
  | n :: ns => n :: keysInOrder (ns.filter (fun m => !(m == n)))
termination_by l => l.length
decreasing_by
  simp only [List.length_cons]
  exact Nat.lt_succ_of_le (List.length_filter_le _ _)

/-- For each bond id (in insertion order), check its site group and produce
the pair of locations to cross-link, mirroring the loop of
`Pattern.__init__`: one site is an error, more than two sites is an error,
exactly two become partners of each other. -/
def linkUpdates (links : List (Int × Nat × String)) :
    List Int → Except String (List ((Nat × String) × (Nat × String)))
  | [] => .ok []
  | n :: ks =>
    match (links.filter (fun t => t.1 == n)).map (fun t => t.2) with
    | [_] => .error "Site link is only referenced in one site."
    | [x, y] =>
      match linkUpdates links ks with
      | .ok rest => .ok ((x, y) :: rest)
      | .error e => .error e
    | [] => .error "unreachable: key with no site"
    | _ => .error "Site link is referenced in more than two sites."

/-- Look up the cross-link partner of a site location: `(x, y)` in the update
list means `x` and `y` become partners of each other. -/
def lookupUpd (upds : List ((Nat × String) × (Nat × String))) (loc : Nat × String) :
    Option (Nat × String) :=
  match upds.find? (fun u => u.1 == loc) with
  | some u => some u.2
  | none => (upds.find? (fun u => u.2 == loc)).map (fun u => u.1)

/-- Replace the partner of every cross-linked site by a reference to its
partner site; all other sites are left unchanged. -/
def applyLinkUpdates (agents : List (Option PAgent))
    (upds : List ((Nat × String) × (Nat × String))) : List (Option PAgent) :=
  agents.enum.map fun p =>
    p.2.map fun ag =>
      { ag with
        sites := ag.sites.map fun s =>
          match lookupUpd upds (p.1, s.label) with
          | some other => { s with partner := .ref other.1 other.2 }
          | none => s }

/-- `Pattern.__init__` (pattern.py lines 370-398): resolve integer bond
labels into reciprocal site cross-references, raising when a label appears on
exactly one site or on more than two. -/
def resolvePattern (agents : List (Option PAgent)) :
    Except String (List (Option PAgent)) :=
  match linkUpdates (patternIntLinks agents)
      (keysInOrder ((patternIntLinks agents).map (fun t => t.1))) with
  | .ok upds => .ok (applyLinkUpdates agents upds)
  | .error e => .error e

/-- The site stored at a (slot, label) location of a pattern. -/
def siteAt (agents : List (Option PAgent)) (loc : Nat × String) : Option PSite :=
  match agents.get? loc.1 with
  | some (some ag) => ag.sites.find? (fun s => s.label == loc.2)
  | _ => none

/-! ## utils.Counted identity and Agent.detached (pattern.py lines 164-171)

`Counted.__hash__` returns the globally assigned creation id and
`Counted.__eq__` compares hashes, so `Site`, `Agent` and `Component` compare
equal exactly when their creation ids coincide.  Objects carry their id
explicitly; the global counter is threaded where fresh objects are created.
The freshness invariant of the global counter is that every live object's id
is strictly below it. -/

structure SiteC where
  cid : Nat
  label : String
  state : String
  partner : PartnerV
deriving DecidableEq, Repr

structure AgentC where
  cid : Nat
  type : String
  interface : List SiteC
deriving DecidableEq, Repr

structure ComponentC where
  cid : Nat
  agents : List AgentC
deriving DecidableEq, Repr

/-- `Counted.__eq__` via `__hash__` for sites. -/
def SiteC.pyEq (a b : SiteC) : Bool := a.cid == b.cid

/-- `Counted.__eq__` via `__hash__` for agents. -/
def AgentC.pyEq (a b : AgentC) : Bool := a.cid == b.cid

/-- `Counted.__eq__` via `__hash__` for components. -/
def ComponentC.pyEq (a b : ComponentC) : Bool := a.cid == b.cid

/-- `Agent.detached` (pattern.py lines 164-171): a clone of the agent with
every site's partner reset to "." (empty).  The list comprehension creates
the new sites first, then `type(self)(...)` creates the new agent, so the
sites receive ids `ctr, ctr+1, …` and the agent id `ctr + len`; returns the
clone together with the advanced global counter. -/
def AgentC.detached (a : AgentC) (ctr : Nat) : AgentC × Nat :=
  let sites := a.interface.enum.map fun p =>
    { cid := ctr + p.1, label := p.2.label, state := p.2.state,
      partner := PartnerV.empty }
  ({ cid := ctr + a.interface.length, type := a.type, interface := sites },
   ctr + a.interface.length + 1)

/-- Python `set.add` under `Counted` equality: a no-op when an equal element
(same creation id) is already present. -/
def pySetAddAgent (s : List AgentC) (a : AgentC) : List AgentC :=
  if s.any (fun b => b.pyEq a) then s else s ++ [a]

/-! ## IndexedSet — the positional index (indexed_set.py lines 118-203)

`IndexedSet` pairs the built-in set with `_item_list` (a position-indexed
vector) and `_item_to_pos` (a hash-map from element to position).  The
hash-map is modelled as an association list; Python dict assignment is
modelled as remove-the-key-then-append, which realises the same key-to-value
mapping (the only thing the code observes through lookups). -/

/-- Dict lookup `m[k]`. -/
def posGet {T : Type} [DecidableEq T] (m : List (T × Nat)) (k : T) : Option Nat :=
  (m.find? (fun p => p.1 == k)).map (fun p => p.2)

/-- Dict assignment `m[k] = v`. -/
def posSet {T : Type} [DecidableEq T] (m : List (T × Nat)) (k : T) (v : Nat) :
    List (T × Nat) :=
  m.filter (fun p => !(p.1 == k)) ++ [(k, v)]

/-- Dict removal, the mutation half of `m.pop(k)`. -/
def posPop {T : Type} [DecidableEq T] (m : List (T × Nat)) (k : T) :
    List (T × Nat) :=
  m.filter (fun p => !(p.1 == k))

/-- The positional state of an `IndexedSet`: the underlying Python set
(`elems`), `_item_list` and `_item_to_pos`. -/
structure ISet (T : Type) where
  elems : List T
  item_list : List T
  item_to_pos : List (T × Nat)

def ISet.empty (T : Type) : ISet T := ⟨[], [], []⟩

/-- `IndexedSet.add` (lines 129-144), positional part:

```python
def add(self, item):
    assert item not in self
    super().add(item)
    self._item_list.append(item)
    self._item_to_pos[item] = len(self._item_list) - 1
```

The failed assertion is `none`.  The recorded position
`len(self._item_list) - 1` after the append is the pre-append length. -/
def ISet.add {T : Type} [DecidableEq T] (s : ISet T) (item : T) :
    Option (ISet T) :=
  if item ∈ s.elems then none
  else some ⟨s.elems ++ [item], s.item_list ++ [item],
    posSet s.item_to_pos item s.item_list.length⟩

/-- `IndexedSet.remove` (lines 146-166), positional part:

```python
def remove(self, item):
    assert item in self
    super().remove(item)
    pos = self._item_to_pos.pop(item)
    last_item = self._item_list.pop()
    if pos != len(self._item_list):
        self._item_list[pos] = last_item
        self._item_to_pos[last_item] = pos
```

The failed assertion, a missing position entry (`KeyError`) and a pop from an
empty list (`IndexError`) are `none`. -/
def ISet.remove {T : Type} [DecidableEq T] (s : ISet T) (item : T) :
    Option (ISet T) :=
  if item ∈ s.elems then
    match posGet s.item_to_pos item, s.item_list.getLast? with
    | some pos, some last =>
      if pos ≠ s.item_list.dropLast.length then
        some ⟨s.elems.erase item,
          s.item_list.dropLast.set pos last,
          posSet (posPop s.item_to_pos item) last pos⟩
      else
        some ⟨s.elems.erase item, s.item_list.dropLast,
          posPop s.item_to_pos item⟩
    | _, _ => none
  else none

/-- `IndexedSet.__getitem__` (lines 200-202): asserts `0 <= i < len(self)`
(the set size) and returns `self._item_list[i]`. -/
def ISet.getitem {T : Type} (s : ISet T) (i : Nat) : Option T :=
  if i < s.elems.length then s.item_list[i]? else none

/-- A sequence of `add`/`remove` calls. -/
inductive ISetOp (T : Type) where
  | add (x : T)
  | remove (x : T)

def ISet.step {T : Type} [DecidableEq T] (s : ISet T) : ISetOp T → Option (ISet T)
  | .add x => s.add x
  | .remove x => s.remove x

/-- Run a sequence of operations from the empty `IndexedSet`; `none` as soon
as one operation violates its precondition. -/
def ISet.run {T : Type} [DecidableEq T] (ops : List (ISetOp T)) : Option (ISet T) :=
  ops.foldl (fun acc op => acc.bind (fun s => ISet.step s op)) (some (ISet.empty T))

/-- The internal consistency of the positional index: elements of the set are
exactly the keys with a stored position, and the position map is precisely
the graph of `_item_list` positions. -/
def ISet.Inv {T : Type} [DecidableEq T] (s : ISet T) : Prop :=
  s.elems.Nodup ∧
  (∀ y, y ∈ s.elems ↔ ∃ i, posGet s.item_to_pos y = some i) ∧
  (∀ y i, posGet s.item_to_pos y = some i ↔ s.item_list[i]? = some y)

/-! ## The prototype mixture engine

mixture.py, rule.py and system.py form the engine the remaining claims cite.
They are written against a pattern module (`SitePattern`, `AgentPattern`,
`ComponentPattern`) that is referenced by the sources but absent from the
tree; its data shape is modelled from the spec (§3) and from how the sources
use it.  Python object identity becomes an explicit numeric id; the Python
object memory becomes the `heap` association list from agent id to agent
data (entries are never deleted — a removed agent's object remains
dereferenceable through stale references, exactly as in Python); mutation
becomes functional update.  Methods that can raise return `Except PyErr`. -/

inductive PyErr where
  | keyError
  | valueError (msg : String)
  | assertError (msg : String)
  | typeError (msg : String)
  | attributeError (msg : String)
  | fuel
deriving DecidableEq, Repr

/-- Modelled from the spec: the internal-state classes of `site_states.py`
(`InternalState` is a plain string tag; `WildCardPredicate`;
`UndeterminedState`). -/
inductive InternalStateP where
  | tag (s : String)
  | wildcard
  | undet
deriving DecidableEq, Repr

/-- A reference to a `SitePattern` object: the owning agent's id and the
site's label (labels are unique within an agent's site dictionary). -/
structure SiteRef where
  agentId : Nat
  label : String
deriving DecidableEq, Repr

/-- Modelled from the spec: the link-state classes of `site_states.py`:
`EmptyState`, `WildCardPredicate`, `UndeterminedState`, `BoundPredicate`,
`SiteTypePredicate`, or a reference to a concrete partner `SitePattern`. -/
inductive LinkStateP where
  | empty
  | wildcard
  | undet
  | boundAny
  | siteType (siteName agentName : String)
  | ref (r : SiteRef)
deriving DecidableEq, Repr

/-- Modelled from the spec: a `SitePattern` with label, internal state and
link state. -/
structure SiteP where
  label : String
  internal : InternalStateP
  link : LinkStateP
deriving DecidableEq, Repr

/-- Modelled from the spec: an `AgentPattern` with a type name and its
label-keyed site dictionary, kept in insertion order. -/
structure AgentP where
  type : String
  sites : List SiteP
deriving DecidableEq, Repr

/-- `a.sites[label]` as an `Option`. -/
def AgentP.getSite (a : AgentP) (lbl : String) : Option SiteP :=
  a.sites.find? (fun s => s.label == lbl)

/-- Modelled from the spec: `SitePattern.undetermined()` — the site is
equivalent to being left unmentioned (both state and link undetermined). -/
def SiteP.undetermined (s : SiteP) : Bool :=
  s.internal == InternalStateP.undet && s.link == LinkStateP.undet

/-- Generic association-list lookup (Python dict access as an `Option`). -/
def alookup {α β : Type} [BEq α] (m : List (α × β)) (k : α) : Option β :=
  (m.find? (fun p => p.1 == k)).map (fun p => p.2)

/-- A mixture connected component (prototype `Component`): `Counted`
identity plus its agents. -/
structure Comp where
  cid : Nat
  agents : List Nat
deriving DecidableEq, Repr

/-- A pattern component (`ComponentPattern`): `Counted` identity plus its
agents in order — `component.agents[0]` is the root used by
`find_embeddings`. -/
structure ComponentPat where
  pid : Nat
  agents : List (Nat × AgentP)
deriving DecidableEq, Repr

/-- An embedding: a Python dict from pattern-agent to mixture-agent,
modelled as an association list of ids in insertion order (a dict preserves
insertion order, and `next(iter(embedding.values()))` is the first value
inserted — the root's image). -/
abbrev Emb := List (Nat × Nat)

/-- An `Edge` (edge.py): an unordered pair of site references. -/
structure EdgeM where
  site1 : SiteRef
  site2 : SiteRef
deriving DecidableEq, Repr

/-- The unordered equality `Edge.__eq__`. -/
def EdgeM.sameAs (e f : EdgeM) : Bool :=
  (e.site1 == f.site1 && e.site2 == f.site2) ||
  (e.site1 == f.site2 && e.site2 == f.site1)

/-- The prototype `Mixture` state (mixture.py lines 21-46):
`agents`, the by-type index, the connected components with their index, the
id nonce, and the two embedding caches.  `heap` is the Python object memory
for agent objects; `cnonce` supplies the `Counted` ids of freshly created
`Component`s; `matchCache` is `match_cache` keyed by the tracked
`ComponentPattern` (identity = `pid`); `matchCacheByComp` is
`match_cache_by_component` keyed by component id then pattern id. -/
structure MixtureM where
  agents : List Nat
  heap : List (Nat × AgentP)
  agentsByType : List (String × List Nat)
  components : List Comp
  componentIndex : List (Nat × Nat)
  nonce : Nat
  cnonce : Nat
  matchCache : List (ComponentPat × List Emb)
  matchCacheByComp : List (Nat × List (Nat × List Emb))
deriving Repr

/-! ### `Mixture.find_embeddings` (mixture.py lines 155-243)

The search is parametrised by the heap and by-type index it reads, so that
the cache rebuild in `apply_update` provably enumerates over the post-edit
graph.  The Python `set` frontier pops in unspecified order; the model pops
the head of a list and pushes newly bound pattern agents at the head — one
fixed admissible order.  Exhausted fuel, a dangling reference, or the
`KeyError` the code itself can raise (host agent lacking a site label that
the pattern mentions with a determined state) are errors. -/

/-- The `for site_name in a.sites` loop body: check each site of pattern
agent `a` against host agent `b`, extending the partial embedding and the
frontier along concrete pattern links.  `ok none` is `search_failed`. -/
def findSiteLoop (heap : List (Nat × AgentP)) (bAg : AgentP) :
    List SiteP → Emb → List Nat → Except PyErr (Option (Emb × List Nat))
  | [], amap, frontier => .ok (some (amap, frontier))
  | aSite :: rest, amap, frontier =>
    -- Check that `b` has a site with the same name
    if (bAg.getSite aSite.label).isNone && !aSite.undetermined then
      .ok none
    else
      match bAg.getSite aSite.label with
      | none => .error .keyError
      | some bSite =>
        -- Check internal state
        let internalOk :=
          match aSite.internal with
          | .wildcard => true
          | .undet => true
          | .tag t => bSite.internal == InternalStateP.tag t
        if !internalOk then .ok none
        else
          -- Check link state
          match aSite.link with
          | .wildcard => findSiteLoop heap bAg rest amap frontier
          | .undet => findSiteLoop heap bAg rest amap frontier
          | .empty =>
            match bSite.link with
            | .empty => findSiteLoop heap bAg rest amap frontier
            | _ => .ok none
          | .boundAny =>
            match bSite.link with
            | .ref _ => findSiteLoop heap bAg rest amap frontier
            | _ => .ok none
          | .siteType sn an =>
            match bSite.link with
            | .ref bPartner =>
              match alookup heap bPartner.agentId with
              | none => .error .keyError
              | some bPartnerAg =>
                -- NOTE: the source combines the two mismatch tests with
                -- `and`, so the check fails only when BOTH the site name
                -- and the agent name disagree (kept faithfully).
                if !(sn == bPartner.label) && !(an == bPartnerAg.type) then
                  .ok none
                else findSiteLoop heap bAg rest amap frontier
            | _ => .ok none
          | .ref aPartner =>
            match bSite.link with
            | .ref bPartner =>
              match alookup amap aPartner.agentId with
              | some v =>
                if !(v == bPartner.agentId) then .ok none
                else findSiteLoop heap bAg rest amap frontier
              | none =>
                findSiteLoop heap bAg rest (amap ++ [(aPartner.agentId, bPartner.agentId)])
                  (aPartner.agentId :: frontier)
            | _ => .ok none

/-- The `while frontier and not search_failed` loop, fuelled. -/
def findBFS (heap : List (Nat × AgentP)) (patHeap : List (Nat × AgentP)) :
    Nat → List Nat → Emb → Except PyErr (Option Emb)
  | 0, frontier, amap => if frontier.isEmpty then .ok (some amap) else .error .fuel
  | _ + 1, [], amap => .ok (some amap)
  | fuel + 1, a :: frontier, amap =>
    match alookup amap a, alookup patHeap a with
    | some bId, some aAg =>
      match alookup heap bId with
      | none => .error .keyError
      | some bAg =>
        if !(aAg.type == bAg.type) then .ok none
        else
          match findSiteLoop heap bAg aAg.sites amap frontier with
          | .error e => .error e
          | .ok none => .ok none
          | .ok (some (amap', frontier')) => findBFS heap patHeap fuel frontier' amap'
    | _, _ => .error .keyError

/-- The `for b_root in self.agents_by_type[...]` loop: run the search from
each candidate root and collect the successful embeddings in order. -/
def findRoots (heap : List (Nat × AgentP)) (pat : ComponentPat) (aRootId : Nat) :
    List Nat → Except PyErr (List Emb)
  | [] => .ok []
  | bRoot :: rest =>
    match findBFS heap pat.agents (pat.agents.length + 1) [aRootId]
        [(aRootId, bRoot)] with
    | .error e => .error e
    | .ok r =>
      match findRoots heap pat aRootId rest with
      | .error e => .error e
      | .ok rest' =>
        match r with
        | some amap => .ok (amap :: rest')
        | none => .ok rest'

/-- `Mixture.find_embeddings`, over explicit heap and by-type index. -/
def findEmbeddingsCore (heap : List (Nat × AgentP))
    (abt : List (String × List Nat)) (pat : ComponentPat) :
    Except PyErr (List Emb) :=
  match pat.agents.head? with
  | none => .error (.assertError "component.agents is empty")
  | some (aRootId, aRoot) =>
    findRoots heap pat aRootId ((alookup abt aRoot.type).getD [])

/-- `Mixture.find_embeddings` on a mixture state. -/
def MixtureM.find_embeddings (m : MixtureM) (pat : ComponentPat) :
    Except PyErr (List Emb) :=
  findEmbeddingsCore m.heap m.agentsByType pat

/-- `Mixture.fetch_embeddings` (lines 248-252): the `match_cache` entry,
empty for untracked patterns (a `defaultdict(list)`). -/
def MixtureM.fetch_embeddings (m : MixtureM) (pat : ComponentPat) : List Emb :=
  ((m.matchCache.find? (fun q => q.1.pid == pat.pid)).map (fun q => q.2)).getD []

/-- `Mixture.fetch_embeddings_in_component` (lines 254-257). -/
def MixtureM.fetch_embeddings_in_component (m : MixtureM) (pat : ComponentPat)
    (c : Comp) : List Emb :=
  ((alookup m.matchCacheByComp c.cid).getD []).find?
      (fun q => q.1 == pat.pid) |>.map (fun q => q.2) |>.getD []

/-! ### The primitive graph edits of `Mixture` (mixture.py lines 327-434) -/

/-- Assign a site's link state in the heap (`site.link_state = ...`). -/
def MixtureM.setLink (m : MixtureM) (r : SiteRef) (l : LinkStateP) :
    Except PyErr MixtureM :=
  match alookup m.heap r.agentId with
  | none => .error .keyError
  | some ag =>
    if (ag.getSite r.label).isNone then .error .keyError
    else .ok { m with heap := m.heap.map (fun p =>
      if p.1 == r.agentId then
        (p.1, { p.2 with sites := p.2.sites.map (fun s =>
          if s.label == r.label then { s with link := l } else s) })
      else p) }

/-- Read a site's link state from the heap. -/
def MixtureM.getLink (m : MixtureM) (r : SiteRef) : Except PyErr LinkStateP :=
  match alookup m.heap r.agentId with
  | none => .error .keyError
  | some ag =>
    match ag.getSite r.label with
    | none => .error .keyError
    | some s => .ok s.link

/-- Fuel bound for a depth-first traversal: one initial push plus one push
per site of every heap agent. -/
def dftFuel (heap : List (Nat × AgentP)) : Nat :=
  heap.foldl (fun acc p => acc + p.2.sites.length + 1) 1

/-- `depth_first_traversal` (per pattern.py lines 148-158): stack-based DFS
over the coupled-partner relation, collecting agents in visit order. -/
def dftGo (heap : List (Nat × AgentP)) :
    Nat → List Nat → List Nat → List Nat
  | 0, _, visited => visited
  | _ + 1, [], visited => visited
  | fuel + 1, a :: stack, visited =>
    if a ∈ visited then dftGo heap fuel stack visited
    else
      let nbrs :=
        match alookup heap a with
        | none => []
        | some ag => ag.sites.filterMap (fun s =>
            match s.link with
            | .ref r => some r.agentId
            | _ => none)
      dftGo heap fuel (nbrs ++ stack) (visited ++ [a])

def depth_first_traversal (heap : List (Nat × AgentP)) (root : Nat) : List Nat :=
  dftGo heap (dftFuel heap) [root] []

/-- Dict assignment for `Nat`-keyed maps (cf. `posSet`). -/
def asetNat (m : List (Nat × Nat)) (k v : Nat) : List (Nat × Nat) :=
  m.filter (fun p => !(p.1 == k)) ++ [(k, v)]

/-- Append to a `defaultdict(list)` bucket (`agents_by_type[t].append(a)`). -/
def abtAppend (abt : List (String × List Nat)) (ty : String) (aid : Nat) :
    List (String × List Nat) :=
  if (alookup abt ty).isSome then
    abt.map (fun p => if p.1 == ty then (p.1, p.2 ++ [aid]) else p)
  else abt ++ [(ty, [aid])]

/-- `Mixture._remove_edge` (lines 403-434): assert the reciprocal links,
empty both sites, and split the component when the second endpoint is no
longer reachable from the first (a fresh `Component` object is constructed
— and a `Counted` id consumed — whether or not it is kept). -/
def MixtureM._remove_edge (m : MixtureM) (e : EdgeM) : Except PyErr MixtureM :=
  match m.getLink e.site1, m.getLink e.site2 with
  | .ok l1, .ok l2 =>
    if !(l1 == LinkStateP.ref e.site2) || !(l2 == LinkStateP.ref e.site1) then
      .error (.assertError "edge is not present")
    else
      match m.setLink e.site1 .empty with
      | .error err => .error err
      | .ok m1 =>
        match m1.setLink e.site2 .empty with
        | .error err => .error err
        | .ok m2 =>
          match alookup m2.componentIndex e.site1.agentId,
              alookup m2.componentIndex e.site2.agentId with
          | some c1, some c2 =>
            if !(c1 == c2) then .error (.assertError "endpoints in distinct components")
            else
              let trav := depth_first_traversal m2.heap e.site1.agentId
              let newComp : Comp := ⟨m2.cnonce, trav⟩
              let m3 := { m2 with cnonce := m2.cnonce + 1 }
              if e.site2.agentId ∈ trav then .ok m3
              else .ok { m3 with
                components := (m3.components.map (fun c =>
                  if c.cid == c1 then
                    { c with agents := c.agents.filter (fun a => !(a ∈ trav : Bool)) }
                  else c)) ++ [newComp],
                componentIndex := m3.componentIndex.map (fun p =>
                  if p.1 ∈ trav then (p.1, newComp.cid) else p) }
          | _, _ => .error .keyError
  | .error err, _ => .error err
  | _, .error err => .error err

/-- `Mixture._remove_agent` (lines 349-366): assert the agent is detached,
remove it from the set and the by-type list, and drop its singleton
component.  The heap entry is kept: the Python object still exists. -/
def MixtureM._remove_agent (m : MixtureM) (aid : Nat) : Except PyErr MixtureM :=
  match alookup m.heap aid with
  | none => .error .keyError
  | some ag =>
    if !(ag.sites.all (fun s => s.link == LinkStateP.empty)) then
      .error (.assertError "agent has bound sites")
    else if !(aid ∈ m.agents : Bool) then .error .keyError
    else
      match alookup m.agentsByType ag.type with
      | none => .error (.valueError "list.remove(x): x not in list")
      | some bucket =>
        if !(aid ∈ bucket : Bool) then
          .error (.valueError "list.remove(x): x not in list")
        else
          match alookup m.componentIndex aid with
          | none => .error .keyError
          | some cid =>
            match m.components.find? (fun c => c.cid == cid) with
            | none => .error .keyError
            | some comp =>
              if !(comp.agents.length == 1) then
                .error (.assertError "component is not a singleton")
              else .ok { m with
                agents := m.agents.filter (fun a => !(a == aid)),
                agentsByType := m.agentsByType.map (fun p =>
                  if p.1 == ag.type then (p.1, p.2.erase aid) else p),
                components := m.components.filter (fun c => !(c.cid == cid)),
                componentIndex := m.componentIndex.filter (fun p => !(p.1 == aid)) }

/-- `Mixture._add_agent` (lines 327-347): assert all sites unbound, add the
agent to the set, its heap entry, the by-type index, and a fresh singleton
component. -/
def MixtureM._add_agent (m : MixtureM) (aid : Nat) (ag : AgentP) :
    Except PyErr MixtureM :=
  if !(ag.sites.all (fun s => s.link == LinkStateP.empty)) then
    .error (.assertError "agent has bound sites")
  else
    let newComp : Comp := ⟨m.cnonce, [aid]⟩
    .ok { m with
      agents := if aid ∈ m.agents then m.agents else m.agents ++ [aid],
      heap := if (alookup m.heap aid).isSome then
          m.heap.map (fun p => if p.1 == aid then (p.1, ag) else p)
        else m.heap ++ [(aid, ag)],
      agentsByType := abtAppend m.agentsByType ag.type aid,
      components := m.components ++ [newComp],
      componentIndex := asetNat m.componentIndex aid newComp.cid,
      cnonce := m.cnonce + 1 }

/-- `Mixture._add_edge` (lines 368-401): assert the endpoints are mixture
agents, set the reciprocal links, and merge the two components (the second
one into the first) when they differ. -/
def MixtureM._add_edge (m : MixtureM) (e : EdgeM) : Except PyErr MixtureM :=
  if !(e.site1.agentId ∈ m.agents : Bool) || !(e.site2.agentId ∈ m.agents : Bool) then
    .error (.assertError "edge endpoint is not in the mixture")
  else
    match m.setLink e.site1 (.ref e.site2) with
    | .error err => .error err
    | .ok m1 =>
      match m1.setLink e.site2 (.ref e.site1) with
      | .error err => .error err
      | .ok m2 =>
        match alookup m2.componentIndex e.site1.agentId,
            alookup m2.componentIndex e.site2.agentId with
        | some c1, some c2 =>
          if c1 == c2 then .ok m2
          else
            match m2.components.find? (fun c => c.cid == c2) with
            | none => .error .keyError
            | some comp2 =>
              .ok { m2 with
                components := (m2.components.filter (fun c => !(c.cid == c2))).map
                  (fun c => if c.cid == c1 then
                    { c with agents := c.agents ++ comp2.agents } else c),
                componentIndex := m2.componentIndex.map (fun p =>
                  if p.1 ∈ comp2.agents then (p.1, c1) else p) }
        | _, _ => .error .keyError

/-! ### The embedding-cache rebuild of `apply_update` (lines 310-325) -/

/-- Append an embedding to the `match_cache_by_component` bucket of a
component id and pattern id. -/
def bumpInner (inner : List (Nat × List Emb)) (pid : Nat) (e : Emb) :
    List (Nat × List Emb) :=
  if (alookup inner pid).isSome then
    inner.map (fun q => if q.1 == pid then (q.1, q.2 ++ [e]) else q)
  else inner ++ [(pid, [e])]

def bumpBucket (acc : List (Nat × List (Nat × List Emb))) (cid pid : Nat)
    (e : Emb) : List (Nat × List (Nat × List Emb)) :=
  if (alookup acc cid).isSome then
    acc.map (fun p => if p.1 == cid then (p.1, bumpInner p.2 pid e) else p)
  else acc ++ [(cid, bumpInner [] pid e)]

/-- Distribute a pattern's embeddings over `match_cache_by_component`, each
keyed by the component of `next(iter(embedding.values()))` — the image of
the root agent. -/
def addEmbsToByComp (ci : List (Nat × Nat)) (pid : Nat) :
    List Emb → List (Nat × List (Nat × List Emb)) →
    Except PyErr (List (Nat × List (Nat × List Emb)))
  | [], acc => .ok acc
  | e :: rest, acc =>
    match e.head? with
    | none => .error .keyError
    | some kv =>
      match alookup ci kv.2 with
      | none => .error .keyError
      | some cid => addEmbsToByComp ci pid rest (bumpBucket acc cid pid e)

/-- The final phase of `apply_update`: reset `match_cache_by_component` and
recompute every tracked pattern's embeddings from scratch over the current
graph, regrouping them by mixture component. -/
def rebuildGo (heap : List (Nat × AgentP)) (abt : List (String × List Nat))
    (ci : List (Nat × Nat)) :
    List (ComponentPat × List Emb) →
    List (ComponentPat × List Emb) → List (Nat × List (Nat × List Emb)) →
    Except PyErr (List (ComponentPat × List Emb) × List (Nat × List (Nat × List Emb)))
  | [], cacheAcc, bcAcc => .ok (cacheAcc, bcAcc)
  | entry :: rest, cacheAcc, bcAcc =>
    match findEmbeddingsCore heap abt entry.1 with
    | .error err => .error err
    | .ok embs =>
      match addEmbsToByComp ci entry.1.pid embs bcAcc with
      | .error err => .error err
      | .ok bcAcc' =>
        rebuildGo heap abt ci rest (cacheAcc ++ [(entry.1, embs)]) bcAcc'

def MixtureM.rebuildCaches (m : MixtureM) : Except PyErr MixtureM :=
  match rebuildGo m.heap m.agentsByType m.componentIndex m.matchCache [] [] with
  | .error err => .error err
  | .ok (cache, byComp) =>
    .ok { m with matchCache := cache, matchCacheByComp := byComp }

/-! ### `MixtureUpdate` (mixture.py lines 453-543) -/

/-- The `MixtureUpdate` record: agents to add (with their assigned ids and
data — they do not exist in the mixture yet), agents to remove, the two
edge sets (modelled as insertion-ordered lists without duplicates under the
unordered `Edge` equality), and the agents whose internal states changed. -/
structure MixtureUpdateM where
  agents_to_add : List (Nat × AgentP)
  agents_to_remove : List Nat
  edges_to_add : List EdgeM
  edges_to_remove : List EdgeM
  agents_changed : List Nat
deriving Repr

def MixtureUpdateM.empty : MixtureUpdateM := ⟨[], [], [], [], []⟩

/-- Python `set.add` on an edge set (unordered equality). -/
def edgeInsert (es : List EdgeM) (e : EdgeM) : List EdgeM :=
  if es.any (fun f => f.sameAs e) then es else es ++ [e]

/-- `MixtureUpdate.remove_agent` (lines 478-488):

```python
def remove_agent(self, agent):
    self.agents_to_remove.append(agent)
    for site in agent.sites.values():
        if isinstance(site.link_state, Site):
            self.edges_to_remove.append(Edge(site, site.link_state))
```

`edges_to_remove` is a `set` (initialised `set()` in `__init__`), which has
no `append` method: the first bound site raises `AttributeError`.  Only a
fully detached agent is recorded successfully — and then no edge removal is
scheduled. -/
def MixtureUpdateM.remove_agent (u : MixtureUpdateM) (aid : Nat) (ag : AgentP) :
    Except PyErr MixtureUpdateM :=
  let u1 := { u with agents_to_remove := u.agents_to_remove ++ [aid] }
  if ag.sites.any (fun s =>
      match s.link with
      | .ref _ => true
      | _ => false) then
    .error (.attributeError "set object has no attribute append")
  else .ok u1

/-- `Mixture.instantiate_agent` (mixture.py lines 48-108): deep-copy the
agent pattern, assign it a fresh mixture id, keep concrete or undetermined
internal states (the latter with a warning), reset concrete or undetermined
links to empty, and reject predicate states. -/
def MixtureM.instantiate_agent (m : MixtureM) (agp : AgentP) :
    Except PyErr (Nat × AgentP × MixtureM) :=
  let newId := m.nonce
  let m1 := { m with nonce := m.nonce + 1 }
  let sitesE : Except PyErr (List SiteP) :=
    agp.sites.foldr (fun s acc =>
      match acc with
      | .error err => .error err
      | .ok rest =>
        match s.internal with
        | .wildcard =>
          .error (.assertError "Pattern is not specific enough to be instantiated.")
        | _ =>
          match s.link with
          | .empty => .ok ({ s with link := LinkStateP.empty } :: rest)
          | .ref _ => .ok ({ s with link := LinkStateP.empty } :: rest)
          | .undet => .ok ({ s with link := LinkStateP.empty } :: rest)
          | _ =>
            .error (.assertError "not specific enough to be instantiated"))
      (.ok [])
  match sitesE with
  | .error err => .error err
  | .ok sites => .ok (newId, { agp with sites := sites }, m1)

/-- `MixtureUpdate.create_agent` (lines 490-506): instantiate the pattern
through the mixture (consuming a fresh id) and record the new agent. -/
def MixtureUpdateM.create_agent (u : MixtureUpdateM) (agp : AgentP)
    (m : MixtureM) : Except PyErr (Nat × MixtureUpdateM × MixtureM) :=
  match m.instantiate_agent agp with
  | .error err => .error err
  | .ok (newId, newAg, m1) =>
    .ok (newId, { u with agents_to_add := u.agents_to_add ++ [(newId, newAg)] }, m1)

/-- Read a site referenced during update construction: from the mixture
heap, or from the update's freshly created agents. -/
def siteData (m : MixtureM) (u : MixtureUpdateM) (r : SiteRef) :
    Except PyErr SiteP :=
  match alookup m.heap r.agentId with
  | some ag =>
    match ag.getSite r.label with
    | some s => .ok s
    | none => .error .keyError
  | none =>
    match alookup u.agents_to_add r.agentId with
    | some ag =>
      match ag.getSite r.label with
      | some s => .ok s
      | none => .error .keyError
    | none => .error .keyError

/-- `MixtureUpdate.disconnect_site` (lines 508-518): schedule the removal of
the site's bond, if any. -/
def MixtureUpdateM.disconnect_site (u : MixtureUpdateM) (m : MixtureM)
    (r : SiteRef) : Except PyErr MixtureUpdateM :=
  match siteData m u r with
  | .error err => .error err
  | .ok s =>
    match s.link with
    | .ref partner =>
      .ok { u with edges_to_remove := edgeInsert u.edges_to_remove ⟨r, partner⟩ }
    | _ => .ok u

/-- `MixtureUpdate.connect_sites` (lines 520-542): schedule removal of any
conflicting bonds on either site, then schedule the new bond unless the two
sites are already bound to each other. -/
def MixtureUpdateM.connect_sites (u : MixtureUpdateM) (m : MixtureM)
    (r1 r2 : SiteRef) : Except PyErr MixtureUpdateM :=
  match siteData m u r1, siteData m u r2 with
  | .ok s1, .ok s2 =>
    let u1 :=
      match s1.link with
      | .ref p =>
        if !(p == r2) then
          { u with edges_to_remove := edgeInsert u.edges_to_remove ⟨r1, p⟩ }
        else u
      | _ => u
    let u2 :=
      match s2.link with
      | .ref p =>
        if !(p == r1) then
          { u1 with edges_to_remove := edgeInsert u1.edges_to_remove ⟨r2, p⟩ }
        else u1
      | _ => u1
    let alreadyBound :=
      match s1.link with
      | .ref p => p == r2 && (match s2.link with | .ref _ => true | _ => false)
      | _ => false
    if !alreadyBound then
      .ok { u2 with edges_to_add := edgeInsert u2.edges_to_add ⟨r1, r2⟩ }
    else .ok u2
  | .error err, _ => .error err
  | _, .error err => .error err

/-- `Mixture.apply_update` (lines 270-325): apply the primitive edits in the
order remove-edges, remove-agents, add-agents, add-edges (the edge sets of
the update are modelled as lists, fixing one iteration order of the Python
sets; `agents_changed` is a no-op in this naive implementation), then
recompute the embedding caches from scratch. -/
def MixtureM.apply_update (m : MixtureM) (u : MixtureUpdateM) :
    Except PyErr MixtureM := do
  let m1 ← u.edges_to_remove.foldlM (fun acc e => acc._remove_edge e) m
  let m2 ← u.agents_to_remove.foldlM (fun acc a => acc._remove_agent a) m1
  let m3 ← u.agents_to_add.foldlM (fun acc p => acc._add_agent p.1 p.2) m2
  let m4 ← u.edges_to_add.foldlM (fun acc e => acc._add_edge e) m3
  m4.rebuildCaches

/-- `Mixture.track_component_pattern` (lines 259-266): record the current
embeddings of a new tracked pattern in both caches. -/
def MixtureM.track_component_pattern (m : MixtureM) (pat : ComponentPat) :
    Except PyErr MixtureM :=
  match m.find_embeddings pat with
  | .error err => .error err
  | .ok embs =>
    match addEmbsToByComp m.componentIndex pat.pid embs m.matchCacheByComp with
    | .error err => .error err
    | .ok byComp =>
      .ok { m with
        matchCache := m.matchCache ++ [(pat, embs)]
        matchCacheByComp := byComp }

/-- Assign a site's internal state in the heap
(`agent.sites[label].internal_state = ...`). -/
def MixtureM.setInternal (m : MixtureM) (r : SiteRef) (v : InternalStateP) :
    Except PyErr MixtureM :=
  match alookup m.heap r.agentId with
  | none => .error .keyError
  | some ag =>
    if (ag.getSite r.label).isNone then .error .keyError
    else .ok { m with heap := m.heap.map (fun p =>
      if p.1 == r.agentId then
        (p.1, { p.2 with sites := p.2.sites.map (fun s =>
          if s.label == r.label then { s with internal := v } else s) })
      else p) }

/-! ### Patterns and the `KappaRule` variants (rule.py) -/

/-- A rule-side `Pattern`: an ordered list of slots, each an agent (with its
`Counted` id) or a null slot. -/
structure PatternM where
  slots : List (Option (Nat × AgentP))
deriving Repr

/-- The non-null slots as an id-keyed map. -/
def PatternM.pmap (p : PatternM) : List (Nat × AgentP) :=
  p.slots.filterMap id

/-- `Pattern.components` (per pattern.py lines 406-414): repeatedly take the
depth-first traversal from a not-yet-seen agent (`next(iter(unseen))`
modelled as the first in slot order) and form a `ComponentPattern`, with
fresh `Counted` ids from `pid`. -/
def patternComponentsGo (pmap : List (Nat × AgentP)) :
    Nat → Nat → List Nat → List ComponentPat
  | _, _, [] => []
  | 0, _, _ :: _ => []
  | fuel + 1, pid, u :: unseen =>
    let trav := depth_first_traversal pmap u
    let comp : ComponentPat :=
      ⟨pid, trav.filterMap (fun a => (alookup pmap a).map (fun ag => (a, ag)))⟩
    comp :: patternComponentsGo pmap fuel (pid + 1)
      (unseen.filter (fun a => !(a ∈ trav : Bool)))

def patternComponents (pmap : List (Nat × AgentP)) (pidStart : Nat) :
    List ComponentPat :=
  patternComponentsGo pmap (pmap.length + 1) pidStart (pmap.map (fun p => p.1))

/-- A `KappaRule`: `str(rule)` (the tallies key), the two patterns, and the
cached `left.components`. -/
structure KappaRuleM where
  name : String
  left : PatternM
  right : PatternM
  leftComponents : List ComponentPat
deriving Repr

/-- `KappaRule.__init__` (rule.py lines 59-71): assert equal slot counts.
`left.components` is the cached property, computed with fresh pattern
component ids from `pidStart`. -/
def mkKappaRule (name : String) (left right : PatternM) (pidStart : Nat) :
    Except PyErr KappaRuleM :=
  if !(left.slots.length == right.slots.length) then
    .error (.assertError "left and right slot counts differ")
  else .ok ⟨name, left, right, patternComponents left.pmap pidStart⟩

/-- `KappaRule.n_embeddings_default` (lines 83-87): `math.prod` of the
cached embedding counts of the left components. -/
def KappaRuleM.n_embeddings_default (r : KappaRuleM) (m : MixtureM) : Int :=
  r.leftComponents.foldl
    (fun acc c => acc * ((m.fetch_embeddings c).length : Int)) 1

/-- `KappaRuleBimolecular.__init__` (lines 305-311): additionally assert
exactly two left components. -/
def mkKappaRuleBimolecular (name : String) (left right : PatternM)
    (pidStart : Nat) : Except PyErr KappaRuleM :=
  match mkKappaRule name left right pidStart with
  | .error e => .error e
  | .ok r =>
    if !(r.leftComponents.length == 2) then
      .error (.assertError "Bimolecular rules patterns must consist of exactly 2 components.")
    else .ok r

/-- `KappaRuleBimolecular.n_embeddings` (lines 313-338): sum over the
mixture components of |embeddings of C₁ inside| times |embeddings of C₂
strictly outside|.  (The `component_weights` dict rebuilt alongside feeds
only `select` and is not part of the returned count; the constructor
guarantees the two components exist, so the `getD` defaults are never
read.) -/
def KappaRuleM.n_embeddings_bimolecular (r : KappaRuleM) (m : MixtureM) : Int :=
  m.components.foldl (fun res comp =>
    let match1 := r.leftComponents.getD 0 ⟨0, []⟩
    let match2 := r.leftComponents.getD 1 ⟨0, []⟩
    let n1 : Int := ((m.fetch_embeddings_in_component match1 comp).length : Int)
    let n2 : Int := ((m.fetch_embeddings match2).length : Int) -
      ((m.fetch_embeddings_in_component match2 comp).length : Int)
    res + n1 * n2) 0

/-! ### `KappaRule.select` and `_produce_update` (rule.py lines 89-220) -/

/-- Insert one chosen component embedding into `selection_map`, returning
`none` at the first host agent already among the accumulated values
(`if component_selection[agent] in selection_map.values(): return None`). -/
def addSelection : List (Nat × Nat) → Emb → Option (List (Nat × Nat))
  | smap, [] => some smap
  | smap, kv :: rest =>
    if smap.any (fun p => p.2 == kv.2) then none
    else addSelection (smap ++ [kv]) rest

/-- The component loop of `KappaRule.select` (lines 103-116): assert the
cached embedding list of each left component nonempty, choose one embedding
(the draw indexes the list), and accumulate; a collision is the null
event. -/
def selectLoop (m : MixtureM) :
    List ComponentPat → List Nat → List (Nat × Nat) →
    Except PyErr (Option (List (Nat × Nat)))
  | [], _, smap => .ok (some smap)
  | c :: cs, draws, smap =>
    let choices := m.fetch_embeddings c
    if choices.length == 0 then
      .error (.assertError "A rule with no valid embeddings was selected")
    else
      match addSelection smap (choices.getD ((draws.headD 0) % choices.length) []) with
      | none => .ok none
      | some smap' => selectLoop m cs draws.tail smap'

/-- `KappaRule.convert_selection_map` (lines 205-220). -/
def KappaRuleM.convert_selection_map (r : KappaRuleM)
    (smap : List (Nat × Nat)) : Except PyErr (List (Option Nat)) :=
  r.left.slots.foldr (fun slot acc =>
    match acc with
    | .error e => .error e
    | .ok rest =>
      match slot with
      | none => .ok (none :: rest)
      | some (aid, _) =>
        match alookup smap aid with
        | some v => .ok (some v :: rest)
        | none => .error .keyError)
    (.ok [])

/-- The internal-state loop of the same-type slot case (lines 160-173):
write each concrete right-hand internal state onto the host site and record
the host agent as changed when it differs from the left-hand state. -/
def produceInternalStates (lAg : AgentP) (aid : Nat) :
    List SiteP → MixtureUpdateM → MixtureM →
    Except PyErr (MixtureUpdateM × MixtureM)
  | [], u, m => .ok (u, m)
  | rSite :: rest, u, m =>
    match rSite.internal with
    | .tag t =>
      match m.setInternal ⟨aid, rSite.label⟩ (.tag t) with
      | .error e => .error e
      | .ok m' =>
        match lAg.getSite rSite.label with
        | none => .error .keyError
        | some lSite =>
          let u' :=
            if !(InternalStateP.tag t == lSite.internal) then
              { u with agents_changed :=
                if aid ∈ u.agents_changed then u.agents_changed
                else u.agents_changed ++ [aid] }
            else u
          produceInternalStates lAg aid rest u' m'
    | _ => produceInternalStates lAg aid rest u m

/-- One left/right slot pair of `_produce_update` (lines 143-175).  The
`(empty, agent)` case calls `update.create_agent(r_agent)` without the
required `mixture` argument and so raises `TypeError`; the agent-removing
cases go through the `AttributeError`-prone `remove_agent`. -/
def produceSlot (lslot rslot : Option (Nat × AgentP)) (sel : Option Nat)
    (u : MixtureUpdateM) (m : MixtureM) :
    Except PyErr (Option Nat × MixtureUpdateM × MixtureM) :=
  match lslot, rslot with
  | none, some _ =>
    .error (.typeError "create_agent missing 1 required positional argument")
  | some _, none =>
    match sel with
    | none => .error .keyError
    | some aid =>
      match alookup m.heap aid with
      | none => .error .keyError
      | some ag =>
        match u.remove_agent aid ag with
        | .error e => .error e
        | .ok u' => .ok (none, u', m)
  | some (_, lAg), some (_, rAg) =>
    match sel with
    | none => .error .keyError
    | some aid =>
      if !(lAg.type == rAg.type) then
        match alookup m.heap aid with
        | none => .error .keyError
        | some ag =>
          match u.remove_agent aid ag with
          | .error e => .error e
          | .ok u' =>
            match u'.create_agent rAg m with
            | .error e => .error e
            | .ok (newId, u'', m') => .ok (some newId, u'', m')
      else
        match produceInternalStates lAg aid rAg.sites u m with
        | .error e => .error e
        | .ok (u', m') => .ok (some aid, u', m')
  | none, none => .ok (none, u, m)

/-- The slot walk of `_produce_update`, building `new_selection`. -/
def produceSlots :
    List (Option (Nat × AgentP)) → List (Option (Nat × AgentP)) →
    List (Option Nat) → MixtureUpdateM → MixtureM →
    Except PyErr (List (Option Nat) × MixtureUpdateM × MixtureM)
  | [], _, _, u, m => .ok ([], u, m)
  | lslot :: ls, rslot :: rs, sel :: sels, u, m =>
    match produceSlot lslot rslot sel u m with
    | .error e => .error e
    | .ok (ns, u', m') =>
      match produceSlots ls rs sels u' m' with
      | .error e => .error e
      | .ok (nss, u'', m'') => .ok (ns :: nss, u'', m'')
  | _ :: _, _, _, _, _ => .error .keyError

/-- One right-hand site of the edge loop (lines 186-201): resolve a
concrete pattern partner through `new_selection` and `connect_sites`,
disconnect on the empty sentinel, skip undetermined, reject the rest. -/
def produceEdgeSite (right : List (Option (Nat × AgentP)))
    (newSel : List (Option Nat)) (aid : Nat) (m : MixtureM) (rSite : SiteP)
    (u : MixtureUpdateM) : Except PyErr MixtureUpdateM :=
  match siteData m u ⟨aid, rSite.label⟩ with
  | .error e => .error e
  | .ok _ =>
    match rSite.link with
    | .ref rPartner =>
      match right.findIdx? (fun slot =>
        match slot with
        | some q => q.1 == rPartner.agentId
        | none => false) with
      | none => .error (.valueError "not in list")
      | some pidx =>
        match newSel[pidx]? with
        | none => .error .keyError
        | some none => .error (.attributeError "NoneType has no attribute sites")
        | some (some partnerHost) =>
          u.connect_sites m ⟨aid, rSite.label⟩ ⟨partnerHost, rPartner.label⟩
    | .empty => u.disconnect_site m ⟨aid, rSite.label⟩
    | .undet => .ok u
    | _ => .error (.typeError "unsupported link state for right-hand rule patterns")

def produceEdgeSites (right : List (Option (Nat × AgentP)))
    (newSel : List (Option Nat)) (m : MixtureM) (aid : Nat) :
    List SiteP → MixtureUpdateM → Except PyErr MixtureUpdateM
  | [], u => .ok u
  | s :: rest, u =>
    match produceEdgeSite right newSel aid m s u with
    | .error e => .error e
    | .ok u' => produceEdgeSites right newSel m aid rest u'

/-- The agent loop of the edge pass (lines 180-202). -/
def produceEdgesAgents (right : List (Option (Nat × AgentP)))
    (newSel : List (Option Nat)) (m : MixtureM) :
    List (Option (Nat × AgentP) × Option Nat) → MixtureUpdateM →
    Except PyErr MixtureUpdateM
  | [], u => .ok u
  | (none, _) :: rest, u => produceEdgesAgents right newSel m rest u
  | (some (_, rAg), selOpt) :: rest, u =>
    match selOpt with
    | none => .error (.attributeError "NoneType has no attribute sites")
    | some aid =>
      match produceEdgeSites right newSel m aid rAg.sites u with
      | .error e => .error e
      | .ok u' => produceEdgesAgents right newSel m rest u'

/-- `KappaRule._produce_update` (lines 120-203). -/
def KappaRuleM._produce_update (r : KappaRuleM) (smap : List (Nat × Nat))
    (m : MixtureM) : Except PyErr (MixtureUpdateM × MixtureM) :=
  match r.convert_selection_map smap with
  | .error e => .error e
  | .ok selection =>
    match produceSlots r.left.slots r.right.slots selection
        MixtureUpdateM.empty m with
    | .error e => .error e
    | .ok (newSel, u, m') =>
      match produceEdgesAgents r.right.slots newSel m'
          (r.right.slots.zip newSel) u with
      | .error e => .error e
      | .ok u' => .ok (u', m')

/-- `KappaRule.select` (lines 89-118): the component loop, then — only when
no collision occurred — `_produce_update`.  The mixture is threaded because
`_produce_update` both consumes fresh ids and writes internal states. -/
def KappaRuleM.select (r : KappaRuleM) (m : MixtureM) (draws : List Nat) :
    Except PyErr (Option MixtureUpdateM × MixtureM) :=
  match selectLoop m r.leftComponents draws [] with
  | .error e => .error e
  | .ok none => .ok (none, m)
  | .ok (some smap) =>
    match r._produce_update smap m with
    | .error e => .error e
    | .ok (u, m') => .ok (some u, m')

/-- The embeddings the draws choose, written from the claim (C4) for
comparison with `select`: the i-th component's choice is its cached
embedding list indexed by the i-th draw. -/
def chosenEmbeddings (m : MixtureM) :
    List ComponentPat → List Nat → List Emb
  | [], _ => []
  | c :: cs, draws =>
    let choices := m.fetch_embeddings c
    choices.getD ((draws.headD 0) % choices.length) [] ::
      chosenEmbeddings m cs draws.tail

/-- All host agents the chosen embeddings map pattern agents to. -/
def chosenValues (m : MixtureM) (cs : List ComponentPat) (draws : List Nat) :
    List Nat :=
  (chosenEmbeddings m cs draws).flatMap (fun e => e.map (fun kv => kv.2))

/-! ### `System.apply_rule` (system.py lines 210-217) -/

/-- The `System` state as `apply_rule` observes it: the mixture, the
per-rule tallies (a `defaultdict` keyed by `str(rule)`), and the
`rule_reactivities` `cached_property` slot in `__dict__` (`some` when
cached; the cached value itself plays no role in `apply_rule`, so it is a
unit). -/
structure SystemM where
  mixture : MixtureM
  tallies : List (String × Nat × Nat)
  ruleReactivities : Option Unit
deriving Repr

/-- `self.tallies[str(rule)]["applied"/"failed"] += 1` on the defaultdict. -/
def tallyBump (t : List (String × Nat × Nat)) (name : String)
    (applied : Bool) : List (String × Nat × Nat) :=
  if (t.find? (fun p => p.1 == name)).isSome then
    t.map (fun p =>
      if p.1 == name then
        (p.1, if applied then (p.2.1 + 1, p.2.2) else (p.2.1, p.2.2 + 1))
      else p)
  else t ++ [(name, if applied then (1, 0) else (0, 1))]

/-- `System.apply_rule` (lines 210-217):

```python
def apply_rule(self, rule):
    update = rule.select(self.mixture)
    if update is not None:
        self.tallies[str(rule)]["applied"] += 1
        self.mixture.apply_update(update)
        del self.__dict__["rule_reactivities"]
    else:
        self.tallies[str(rule)]["failed"] += 1
```

The `del` raises `KeyError` when the reactivities were never cached. -/
def SystemM.apply_rule (sys : SystemM) (r : KappaRuleM) (draws : List Nat) :
    Except PyErr SystemM :=
  match r.select sys.mixture draws with
  | .error e => .error e
  | .ok (none, _) => .ok { sys with tallies := tallyBump sys.tallies r.name false }
  | .ok (some u, m') =>
    let t := tallyBump sys.tallies r.name true
    match m'.apply_update u with
    | .error e => .error e
    | .ok m₂ =>
      match sys.ruleReactivities with
      | none => .error .keyError
      | some _ => .ok ⟨m₂, t, none⟩

/-! ### Well-formedness and the cache grouping key -/

/-- Bonded agents lie in the same component, over an explicit heap and
component index. -/
def wfLinksCore (heap : List (Nat × AgentP)) (ci : List (Nat × Nat)) : Prop :=
  ∀ aid ag, alookup heap aid = some ag → ∀ s ∈ ag.sites, ∀ r,
    s.link = LinkStateP.ref r → alookup ci aid = alookup ci r.agentId

/-- Bonded agents lie in the same mixture component — the invariant the
engine maintains for `component_index`; the image conjunct of the cache
round-trip theorem assumes it. -/
def wfLinks (m : MixtureM) : Prop :=
  wfLinksCore m.heap m.componentIndex

/-- The component of `next(iter(embedding.values()))` over an explicit
component index. -/
def rootCidCore (ci : List (Nat × Nat)) (e : Emb) : Option Nat :=
  e.head?.bind (fun kv => alookup ci kv.2)

/-- The component of `next(iter(embedding.values()))` — the grouping key of
`match_cache_by_component`. -/
def rootCid (m : MixtureM) (e : Emb) : Option Nat :=
  rootCidCore m.componentIndex e

/-- The tally pair `(applied, failed)` of one rule; `tallies` is a
`defaultdict`, so an absent key reads as `(0, 0)`. -/
def tallyOf (t : List (String × Nat × Nat)) (name : String) : Nat × Nat :=
  ((t.find? (fun p => p.1 == name)).map (fun p => p.2)).getD (0, 0)

/-- One `match_cache_by_component` bucket, with the `defaultdict` read
semantics at both levels. -/
def bucketGet (bc : List (Nat × List (Nat × List Emb))) (cid pid : Nat) :
    List Emb :=
  (alookup ((alookup bc cid).getD []) pid).getD []

/-! ### Concrete states used to evaluate the theorems -/

/-- The empty mixture. -/
def mixNil : MixtureM := ⟨[], [], [], [], [], 0, 0, [], []⟩

/-- The rule with empty left and right patterns. -/
def ruleNil : KappaRuleM := ⟨"r", ⟨[]⟩, ⟨[]⟩, []⟩

/-- A one-agent mixture caching, for two tracked one-agent pattern
components (ids 5 and 6), one embedding each — both onto the single host
agent 1. -/
def mixOne : MixtureM :=
  ⟨[1], [(1, ⟨"A", []⟩)], [("A", [1])], [⟨0, [1]⟩], [(1, 0)], 2, 1,
    [(⟨5, [(0, ⟨"A", []⟩)]⟩, [[(0, 1)]]),
     (⟨6, [(7, ⟨"A", []⟩)]⟩, [[(7, 1)]])], []⟩

/-- `mixOne` after an empty update: the caches are rebuilt from scratch,
populating the per-component index. -/
def mixOneReb : MixtureM :=
  ⟨[1], [(1, ⟨"A", []⟩)], [("A", [1])], [⟨0, [1]⟩], [(1, 0)], 2, 1,
    [(⟨5, [(0, ⟨"A", []⟩)]⟩, [[(0, 1)]]),
     (⟨6, [(7, ⟨"A", []⟩)]⟩, [[(7, 1)]])],
    [(0, [(5, [[(0, 1)]]), (6, [[(7, 1)]])])]⟩

/-- A bimolecular-shaped rule whose two left components are the tracked
patterns of `mixOne`. -/
def ruleTwo : KappaRuleM :=
  ⟨"s", ⟨[some (0, ⟨"A", []⟩), some (7, ⟨"A", []⟩)]⟩,
    ⟨[some (0, ⟨"A", []⟩), some (7, ⟨"A", []⟩)]⟩,
    [⟨5, [(0, ⟨"A", []⟩)]⟩, ⟨6, [(7, ⟨"A", []⟩)]⟩]⟩

end Kappybara

namespace Kappybara

/-! ## Theorems -/

/-- Helper: `getD` at an in-range index is a member. -/
theorem getD_mem {α : Type} {l : List α} {n : Nat} {d : α} (h : n < l.length) :
    l.getD n d ∈ l := by
  rw [List.getD_eq_getElem?_getD, List.getElem?_eq_getElem h]
  exact List.getElem_mem h

/-- Helper: whatever the utils.py fast phase returns is a population element
that is not identity-excluded. -/
theorem utilsFastPhase_sound (population : List PyObj) (excludedIds : List Nat)
    (draws : List Nat) (c : PyObj) (hpop : population ≠ [])
    (h : utilsFastPhase population excludedIds draws = some c) :
    c ∈ population ∧ c.oid ∉ excludedIds := by
  induction draws with
  | nil => simp [utilsFastPhase] at h
  | cons d ds ih =>
    simp only [utilsFastPhase] at h
    split at h
    · exact ih h
    · next hmem =>
      obtain rfl : population.getD (d % population.length) ⟨0, none⟩ = c := by
        simpa using h
      exact ⟨getD_mem (Nat.mod_lt _ (List.length_pos.mpr hpop)), hmem⟩

/-- Helper: the utils.py `rejection_sample` is correct: any value it returns
belongs to the population and is not excluded by identity, and it raises
`ValueError` exactly when the population is empty or every element is
identity-excluded. -/
theorem rejection_sample_utils_sound (population excluded : List PyObj)
    (draws : List Nat) (dFallback : Nat) :
    (∀ c, rejection_sample population excluded draws dFallback = .ok c →
      c ∈ population ∧ c.oid ∉ excluded.map (·.oid)) ∧
    ((∃ e, rejection_sample population excluded draws dFallback = .error e) ↔
      population = [] ∨ ∀ x ∈ population, x.oid ∈ excluded.map (·.oid)) := by
  constructor
  · intro c hc
    unfold rejection_sample at hc
    split at hc
    · exact absurd hc (by simp)
    · next hne =>
      have hpop : population ≠ [] := by simpa [List.isEmpty_iff] using hne
      simp only at hc
      split at hc
      · next c' heq => exact (Except.ok.injEq _ _ ▸ hc) ▸ utilsFastPhase_sound _ _ _ _ hpop heq
      · split at hc
        · exact absurd hc (by simp)
        · next hval =>
          have hc' : (population.filter
              (fun item => !decide (item.oid ∈ excluded.map (·.oid)))).getD
              (dFallback % (population.filter
                (fun item => !decide (item.oid ∈ excluded.map (·.oid)))).length)
              ⟨0, none⟩ = c := by
            simpa using hc
          have hvne : population.filter
              (fun item => !decide (item.oid ∈ excluded.map (·.oid))) ≠ [] := by
            simpa [List.isEmpty_iff] using hval
          have hmem : c ∈ population.filter
              (fun item => !decide (item.oid ∈ excluded.map (·.oid))) := by
            rw [← hc']
            exact getD_mem (Nat.mod_lt _ (List.length_pos.mpr hvne))
          have := List.of_mem_filter hmem
          exact ⟨List.mem_of_mem_filter hmem, by simpa using this⟩
  · constructor
    · rintro ⟨e, he⟩
      unfold rejection_sample at he
      split at he
      · next hemp => exact Or.inl (by simpa [List.isEmpty_iff] using hemp)
      · next hne =>
        simp only at he
        split at he
        · exact absurd he (by simp)
        · next hfast =>
          split at he
          · next hval =>
            refine Or.inr ?_
            intro x hx
            by_contra hxo
            have hmemf : x ∈ population.filter
                (fun item => !decide (item.oid ∈ excluded.map (·.oid))) :=
              List.mem_filter.mpr ⟨hx, by simpa using hxo⟩
            have hnil : population.filter
                (fun item => !decide (item.oid ∈ excluded.map (·.oid))) = [] := by
              rw [← List.isEmpty_iff]
              simpa using hval
            rw [hnil] at hmemf
            simp at hmemf
          · exact absurd he (by simp)
    · intro h
      rcases h with h | h
      · exact ⟨"Sequence is empty", by simp [rejection_sample, h]⟩
      · by_cases hemp : population.isEmpty
        · exact ⟨"Sequence is empty", by simp [rejection_sample, hemp]⟩
        · refine ⟨"No valid elements to choose from", ?_⟩
          have hpop : population ≠ [] := by simpa [List.isEmpty_iff] using hemp
          have hfast : utilsFastPhase population (excluded.map (·.oid)) draws = none := by
            cases heq : utilsFastPhase population (excluded.map (·.oid)) draws with
            | none => rfl
            | some c =>
              obtain ⟨hc, hoid⟩ := utilsFastPhase_sound _ _ _ _ hpop heq
              exact absurd (h c hc) hoid
          have hval : (population.filter
              (fun item => !decide (item.oid ∈ excluded.map (·.oid)))) = [] := by
            apply List.eq_nil_iff_forall_not_mem.mpr
            intro x hx
            have hmem := List.mem_of_mem_filter hx
            have := List.of_mem_filter hx
            exact absurd (h x hmem) (by simpa using this)
          simp only [rejection_sample, hemp, Bool.false_eq_true, if_false, hfast, hval,
            List.isEmpty_nil, if_true]

/-- C9: the rule.py duplicate of `rejection_sample` violates the claim: with a
population consisting of one non-integer object (an `Embedding`) that is also
the single excluded element, every fast-phase attempt rejects it, and the
fallback scan — which tests `elem not in exclude_set`, comparing the element
itself against the set of integer `id()`s instead of `id(elem)` — then
returns the excluded element instead of raising `ValueError`. -/
theorem rejection_sample_rule_returns_excluded :
    rejection_sample_rule [⟨7, none⟩] [⟨7, none⟩] (List.replicate 100 0) 0 =
      .ok ⟨7, none⟩ ∧
    (⟨7, none⟩ : PyObj).oid ∈ ([⟨7, none⟩] : List PyObj).map (·.oid) := by
  constructor
  · rfl
  · simp

/-! ### Lemmas for `Pattern.__init__` bond resolution -/

/-- Membership is preserved by first-occurrence deduplication. -/
theorem mem_keysInOrder : ∀ (l : List Int) (n : Int), n ∈ keysInOrder l ↔ n ∈ l
  | [], _ => by simp [keysInOrder]
  | m :: ms, n => by
    rw [keysInOrder]
    by_cases h : n = m
    · subst h; simp
    · have ih := mem_keysInOrder (ms.filter (fun k => !(k == m))) n
      simp only [List.mem_cons, h, false_or]
      rw [ih]
      simp [List.mem_filter, h]
termination_by l _ => l.length
decreasing_by
  simp only [List.length_cons]
  exact Nat.lt_succ_of_le (List.length_filter_le _ _)

/-- First-occurrence deduplication yields a duplicate-free list. -/
theorem keysInOrder_nodup : ∀ (l : List Int), (keysInOrder l).Nodup
  | [] => by simp [keysInOrder]
  | m :: ms => by
    rw [keysInOrder]
    refine List.nodup_cons.mpr ⟨?_, keysInOrder_nodup (ms.filter (fun k => !(k == m)))⟩
    intro hmem
    rw [mem_keysInOrder] at hmem
    have := List.of_mem_filter hmem
    simp at this
termination_by l => l.length
decreasing_by
  simp only [List.length_cons]
  exact Nat.lt_succ_of_le (List.length_filter_le _ _)

/-- `linkUpdates` succeeds exactly when every bond id in the key list labels
exactly two sites. -/
theorem linkUpdates_isOk_iff (links : List (Int × Nat × String)) :
    ∀ ks : List Int,
      (∃ u, linkUpdates links ks = .ok u) ↔
        ∀ n ∈ ks, (links.filter (fun t => t.1 == n)).length = 2
  | [] => by simp [linkUpdates]
  | n :: ks => by
    have hlen : (links.filter (fun t => t.1 == n)).length =
        ((links.filter (fun t => t.1 == n)).map (fun t => t.2)).length :=
      (List.length_map _ _).symm
    simp only [linkUpdates]
    cases hg : (links.filter (fun t => t.1 == n)).map (fun t => t.2) with
    | nil =>
      constructor
      · rintro ⟨u, hu⟩; cases hu
      · intro h
        exact absurd (h n (by simp)) (by rw [hlen, hg]; simp)
    | cons x tl =>
      cases tl with
      | nil =>
        constructor
        · rintro ⟨u, hu⟩; cases hu
        · intro h
          exact absurd (h n (by simp)) (by rw [hlen, hg]; simp)
      | cons y rest =>
        cases rest with
        | nil =>
          have h2 : (links.filter (fun t => t.1 == n)).length = 2 := by
            rw [hlen, hg]
            rfl
          cases hrec : linkUpdates links ks with
          | error e =>
            constructor
            · rintro ⟨u, hu⟩; cases hu
            · intro h
              obtain ⟨u, hu⟩ := (linkUpdates_isOk_iff links ks).mpr
                (fun m hm => h m (List.mem_cons_of_mem _ hm))
              rw [hrec] at hu; cases hu
          | ok u' =>
            constructor
            · intro _ m hm
              rcases List.mem_cons.mp hm with rfl | hm'
              · exact h2
              · exact (linkUpdates_isOk_iff links ks).mp ⟨u', hrec⟩ m hm'
            · exact fun _ => ⟨(x, y) :: u', rfl⟩
        | cons z rest' =>
          constructor
          · rintro ⟨u, hu⟩; cases hu
          · intro h
            have := h n (by simp)
            rw [hlen, hg] at this
            simp at this

/-- Every pair produced by `linkUpdates` is the site group of one of the
keys. -/
theorem linkUpdates_mem (links : List (Int × Nat × String)) :
    ∀ (ks : List Int) (upds : List ((Nat × String) × (Nat × String))),
      linkUpdates links ks = .ok upds →
      ∀ p ∈ upds, ∃ n ∈ ks,
        (links.filter (fun t => t.1 == n)).map (fun t => t.2) = [p.1, p.2]
  | [], upds, h => by
    cases h
    simp
  | n :: ks, upds, h => by
    revert h
    simp only [linkUpdates]
    cases hg : (links.filter (fun t => t.1 == n)).map (fun t => t.2) with
    | nil => intro h; cases h
    | cons x tl =>
      cases tl with
      | nil => intro h; cases h
      | cons y rest =>
        cases rest with
        | nil =>
          cases hrec : linkUpdates links ks with
          | error e => intro h; cases h
          | ok u' =>
            intro h
            cases h
            intro p hp
            rcases List.mem_cons.mp hp with rfl | hp'
            · exact ⟨n, by simp, hg⟩
            · obtain ⟨m, hm, hgm⟩ := linkUpdates_mem links ks u' hrec p hp'
              exact ⟨m, List.mem_cons_of_mem _ hm, hgm⟩
        | cons z rest' => intro h; cases h

/-- Every two-site group of a listed key is cross-linked by `linkUpdates`. -/
theorem linkUpdates_covers (links : List (Int × Nat × String)) :
    ∀ (ks : List Int) (upds : List ((Nat × String) × (Nat × String))),
      linkUpdates links ks = .ok upds →
      ∀ n ∈ ks, ∀ x y,
        (links.filter (fun t => t.1 == n)).map (fun t => t.2) = [x, y] →
        (x, y) ∈ upds
  | [], upds, h => by simp
  | n :: ks, upds, h => by
    revert h
    simp only [linkUpdates]
    cases hg : (links.filter (fun t => t.1 == n)).map (fun t => t.2) with
    | nil => intro h; cases h
    | cons x tl =>
      cases tl with
      | nil => intro h; cases h
      | cons y rest =>
        cases rest with
        | nil =>
          cases hrec : linkUpdates links ks with
          | error e => intro h; cases h
          | ok u' =>
            intro h
            cases h
            intro m hm a b hab
            rcases List.mem_cons.mp hm with rfl | hm'
            · rw [hg] at hab
              cases hab
              exact List.mem_cons_self _ _
            · exact List.mem_cons_of_mem _
                (linkUpdates_covers links ks u' hrec m hm' a b hab)
        | cons z rest' => intro h; cases h

/-- A location in the site group of `n` carries the link entry `(n, loc)`. -/
theorem group_mem_links {links : List (Int × Nat × String)} {n : Int}
    {x : Nat × String}
    (h : x ∈ (links.filter (fun t => t.1 == n)).map (fun t => t.2)) :
    (n, x) ∈ links := by
  rcases List.mem_map.mp h with ⟨t, ht, rfl⟩
  have hmem := List.mem_of_mem_filter ht
  have hp : t.1 = n := by simpa using List.of_mem_filter ht
  obtain ⟨a, b⟩ := t
  cases hp
  exact hmem

/-- Under duplicate-free site locations, a location determines its bond id. -/
theorem link_loc_unique {links : List (Int × Nat × String)}
    (hnd : (links.map (fun t => t.2)).Nodup) {n m : Int} {loc : Nat × String}
    (h1 : (n, loc) ∈ links) (h2 : (m, loc) ∈ links) : n = m := by
  have := List.inj_on_of_nodup_map hnd h1 h2 rfl
  exact congrArg Prod.fst this

/-- The two locations of a bond group are distinct when site locations are
duplicate-free. -/
theorem group_pair_ne {links : List (Int × Nat × String)}
    (hnd : (links.map (fun t => t.2)).Nodup) {n : Int} {x y : Nat × String}
    (hg : (links.filter (fun t => t.1 == n)).map (fun t => t.2) = [x, y]) :
    x ≠ y := by
  have hsub : ((links.filter (fun t => t.1 == n)).map (fun t => t.2)).Sublist
      (links.map (fun t => t.2)) := (List.filter_sublist links).map _
  have hnd2 := hnd.sublist hsub
  rw [hg] at hnd2
  simp at hnd2
  exact hnd2

/-- Dropping a head pair whose components differ from the queried location. -/
theorem lookupUpd_cons_ne {x₀ y₀ loc : Nat × String}
    {rest : List ((Nat × String) × (Nat × String))}
    (hx : x₀ ≠ loc) (hy : y₀ ≠ loc) :
    lookupUpd ((x₀, y₀) :: rest) loc = lookupUpd rest loc := by
  unfold lookupUpd
  rw [List.find?_cons_of_neg _ (by simpa using hx),
    List.find?_cons_of_neg _ (by simpa using hy)]

/-- Each cross-linked pair is found by `lookupUpd` in both directions. -/
theorem lookupUpd_of_mem (links : List (Int × Nat × String))
    (hnd : (links.map (fun t => t.2)).Nodup) :
    ∀ (ks : List Int) (upds : List ((Nat × String) × (Nat × String))),
      ks.Nodup →
      linkUpdates links ks = .ok upds →
      ∀ x y, (x, y) ∈ upds →
        lookupUpd upds x = some y ∧ lookupUpd upds y = some x
  | [], upds, _, h => by
    cases h
    simp
  | n :: ks, upds, hks, h => by
    revert h
    simp only [linkUpdates]
    cases hg : (links.filter (fun t => t.1 == n)).map (fun t => t.2) with
    | nil => intro h; cases h
    | cons a tl =>
      cases tl with
      | nil => intro h; cases h
      | cons b rest =>
        cases rest with
        | nil =>
          cases hrec : linkUpdates links ks with
          | error e => intro h; cases h
          | ok u' =>
            intro h
            cases h
            intro x y hxy
            have hks' := List.nodup_cons.mp hks
            have hab : a ≠ b := group_pair_ne hnd hg
            have haL : (n, a) ∈ links := group_mem_links (by rw [hg]; simp)
            have hbL : (n, b) ∈ links := group_mem_links (by rw [hg]; simp)
            -- any component of a pair of `u'` lies in the group of a key of `ks`
            have hcomp : ∀ p ∈ u', ∃ m ∈ ks, (m, p.1) ∈ links ∧ (m, p.2) ∈ links := by
              intro p hp
              obtain ⟨m, hm, hgm⟩ := linkUpdates_mem links ks u' hrec p hp
              exact ⟨m, hm, group_mem_links (by rw [hgm]; simp),
                group_mem_links (by rw [hgm]; simp)⟩
            rcases List.mem_cons.mp hxy with heq | hxy'
            · -- the head pair
              injection heq with hxa hyb
              subst hxa
              subst hyb
              constructor
              · unfold lookupUpd
                rw [List.find?_cons_of_pos _ (by simp)]
              · have hrest1 : List.find? (fun u => u.1 == y) u' = none := by
                  rw [List.find?_eq_none]
                  rintro p hp hpy
                  obtain ⟨m, hm, hp1, _⟩ := hcomp p hp
                  have hpb : p.1 = y := by simpa using hpy
                  rw [hpb] at hp1
                  exact hks'.1 (link_loc_unique hnd hp1 hbL ▸ hm)
                unfold lookupUpd
                rw [List.find?_cons_of_neg _ (by simpa using hab), hrest1,
                  List.find?_cons_of_pos _ (by simp)]
                rfl
            · -- a pair of the tail
              obtain ⟨m, hm, hx1, hy1⟩ := hcomp (x, y) hxy'
              have hx1' : (m, x) ∈ links := hx1
              have hy1' : (m, y) ∈ links := hy1
              have hmn : m ≠ n := fun hmn => hks'.1 (hmn ▸ hm)
              have key : ∀ c : Nat × String, (n, c) ∈ links → c ≠ x ∧ c ≠ y := by
                intro c hc
                constructor
                · intro hcx
                  subst hcx
                  exact hmn (link_loc_unique hnd hx1' hc)
                · intro hcy
                  subst hcy
                  exact hmn (link_loc_unique hnd hy1' hc)
              have ih := lookupUpd_of_mem links hnd ks u' hks'.2 hrec x y hxy'
              rw [lookupUpd_cons_ne (key a haL).1 (key b hbL).1,
                lookupUpd_cons_ne (key a haL).2 (key b hbL).2]
              exact ih
        | cons z rest' => intro h; cases h

/-- A location that carries no integer bond link is not touched by the
update list. -/
theorem lookupUpd_not_linked (links : List (Int × Nat × String))
    (ks : List Int) (upds : List ((Nat × String) × (Nat × String)))
    (h : linkUpdates links ks = .ok upds) (loc : Nat × String)
    (hloc : ∀ n, (n, loc) ∉ links) : lookupUpd upds loc = none := by
  have hcomp : ∀ p ∈ upds, ∃ m, (m, p.1) ∈ links ∧ (m, p.2) ∈ links := by
    intro p hp
    obtain ⟨m, _, hgm⟩ := linkUpdates_mem links ks upds h p hp
    exact ⟨m, group_mem_links (by rw [hgm]; simp),
      group_mem_links (by rw [hgm]; simp)⟩
  unfold lookupUpd
  have h1 : List.find? (fun u => u.1 == loc) upds = none := by
    rw [List.find?_eq_none]
    rintro p hp hp1
    obtain ⟨m, hm1, _⟩ := hcomp p hp
    have : p.1 = loc := by simpa using hp1
    exact hloc m (this ▸ hm1)
  have h2 : List.find? (fun u => u.2 == loc) upds = none := by
    rw [List.find?_eq_none]
    rintro p hp hp2
    obtain ⟨m, _, hm2⟩ := hcomp p hp
    have : p.2 = loc := by simpa using hp2
    exact hloc m (this ▸ hm2)
  rw [h1, h2]
  rfl

/-- `find?` by label retrieves a given member when labels are duplicate-free. -/
theorem find?_label_of_mem {sites : List PSite}
    (hnd : (sites.map (fun s => s.label)).Nodup) {s : PSite} (hs : s ∈ sites) :
    sites.find? (fun t => t.label == s.label) = some s := by
  induction sites with
  | nil => cases hs
  | cons a l ih =>
    rw [List.map_cons, List.nodup_cons] at hnd
    rcases List.mem_cons.mp hs with rfl | hs'
    · exact List.find?_cons_of_pos _ (by simp)
    · have hne : ¬(a.label == s.label) = true := by
        simp only [beq_iff_eq]
        intro heq
        exact hnd.1 (by rw [heq]; exact List.mem_map_of_mem _ hs')
      rw [List.find?_cons_of_neg]
      · exact ih hnd.2 hs'
      · exact hne

/-- A site found by `siteAt` carries the queried label. -/
theorem siteAt_label {agents : List (Option PAgent)} {loc : Nat × String}
    {s : PSite} (h : siteAt agents loc = some s) : s.label = loc.2 := by
  revert h
  unfold siteAt
  cases agents.get? loc.1 with
  | none => intro h; cases h
  | some oa =>
    cases oa with
    | none => intro h; cases h
    | some ag =>
      intro h
      simpa using List.find?_some h

/-- `siteAt` and `applyLinkUpdates` commute through `lookupUpd`. -/
theorem siteAt_applyLinkUpdates (agents : List (Option PAgent))
    (upds : List ((Nat × String) × (Nat × String))) (loc : Nat × String) :
    siteAt (applyLinkUpdates agents upds) loc =
      (siteAt agents loc).map (fun s =>
        match lookupUpd upds (loc.1, s.label) with
        | some other => { s with partner := PPartner.ref other.1 other.2 }
        | none => s) := by
  unfold siteAt applyLinkUpdates
  rw [List.get?_eq_getElem?, List.get?_eq_getElem?, List.getElem?_map,
    List.getElem?_enum]
  cases hga : agents[loc.1]? with
  | none => rfl
  | some oa =>
    cases oa with
    | none => rfl
    | some ag =>
      simp only [Option.map_some']
      rw [List.find?_map]
      have hcomp : ((fun t : PSite => t.label == loc.2) ∘ (fun s : PSite =>
          match lookupUpd upds (loc.1, s.label) with
          | some other => { s with partner := PPartner.ref other.1 other.2 }
          | none => s)) = fun t : PSite => t.label == loc.2 := by
        funext s
        rcases h : lookupUpd upds (loc.1, s.label) with _ | other <;>
          simp [Function.comp, h]
      rw [hcomp]

/-- A site whose partner is an integer bond label appears in
`patternIntLinks` at its own location. -/
theorem siteAt_link_mem {agents : List (Option PAgent)} {loc : Nat × String}
    {s : PSite} {n : Int} (hsite : siteAt agents loc = some s)
    (hp : s.partner = .link n) : (n, loc) ∈ patternIntLinks agents := by
  revert hsite
  unfold siteAt
  cases hga : agents.get? loc.1 with
  | none => intro h; cases h
  | some oa =>
    cases oa with
    | none => intro h; cases h
    | some ag =>
      intro hsite
      have hmem := List.mem_of_find?_eq_some hsite
      have hlbl : s.label = loc.2 := by simpa using List.find?_some hsite
      unfold patternIntLinks
      rw [List.mem_flatten]
      refine ⟨ag.sites.filterMap (fun t => match t.partner with
        | .link k => some (k, loc.1, t.label)
        | _ => none), ?_, ?_⟩
      · refine List.mem_map.mpr ⟨(loc.1, some ag), ?_, rfl⟩
        exact List.mk_mem_enum_iff_getElem?.mpr
          (by rw [← List.get?_eq_getElem?]; exact hga)
      · refine List.mem_filterMap.mpr ⟨s, hmem, ?_⟩
        rw [hp, hlbl]

/-- Conversely, every entry of `patternIntLinks` is retrieved by `siteAt`
(under per-agent label uniqueness, the reality of label-keyed interface
dictionaries). -/
theorem mem_links_siteAt {agents : List (Option PAgent)}
    (hlab : ∀ i ag, agents.get? i = some (some ag) →
      (ag.sites.map (fun s => s.label)).Nodup)
    {n : Int} {loc : Nat × String} (h : (n, loc) ∈ patternIntLinks agents) :
    ∃ s, siteAt agents loc = some s ∧ s.partner = .link n := by
  unfold patternIntLinks at h
  rw [List.mem_flatten] at h
  obtain ⟨inner, hinner, hmem⟩ := h
  rw [List.mem_map] at hinner
  obtain ⟨p, hp, rfl⟩ := hinner
  obtain ⟨i, oa⟩ := p
  cases oa with
  | none => simp at hmem
  | some ag =>
    rw [List.mem_filterMap] at hmem
    obtain ⟨s, hs, hmatch⟩ := hmem
    have hget : agents.get? i = some (some ag) := by
      rw [List.get?_eq_getElem?]
      exact List.mk_mem_enum_iff_getElem?.mp hp
    cases hpart : s.partner with
    | sym st => rw [hpart] at hmatch; cases hmatch
    | siteType sn an => rw [hpart] at hmatch; cases hmatch
    | ref sl lb => rw [hpart] at hmatch; cases hmatch
    | link k =>
      rw [hpart] at hmatch
      injection hmatch with hmatch
      have hk : k = n := congrArg Prod.fst hmatch
      have hloc : ((i, s.label) : Nat × String) = loc := congrArg Prod.snd hmatch
      have hsa : siteAt agents (i, s.label) = some s := by
        unfold siteAt
        have hget' : agents.get? ((i, s.label) : Nat × String).1 = some (some ag) := hget
        rw [hget']
        exact find?_label_of_mem (hlab i ag hget) hs
      exact ⟨s, hloc ▸ hsa, by rw [hpart, hk]⟩

/-- The locations of the link entries contributed by one slot are the labels
of its link-carrying sites, paired with the slot index. -/
theorem linksOfSites_eq (i : Nat) (sites : List PSite) :
    (sites.filterMap (fun s =>
        match s.partner with
        | PPartner.link n => some (n, i, s.label)
        | _ => none)).map (fun t => t.2) =
      ((sites.filter (fun s =>
        match s.partner with
        | PPartner.link _ => true
        | _ => false)).map (fun s => s.label)).map (fun lbl => (i, lbl)) := by
  induction sites with
  | nil => rfl
  | cons a l ih =>
    cases hpa : a.partner <;>
      simp [List.filterMap_cons, List.filter_cons, hpa, ih]

/-- Per-agent label uniqueness makes all link-site locations distinct. -/
theorem patternIntLinks_locs_nodup (agents : List (Option PAgent))
    (hlab : ∀ i ag, agents.get? i = some (some ag) →
      (ag.sites.map (fun s => s.label)).Nodup) :
    ((patternIntLinks agents).map (fun t => t.2)).Nodup := by
  have hloc1 : ∀ (p : Nat × Option PAgent) (x : Nat × String),
      x ∈ (List.map (fun t : Int × Nat × String => t.2)
        (match p.2 with
        | none => []
        | some ag => ag.sites.filterMap (fun s =>
            match s.partner with
            | PPartner.link n => some (n, p.1, s.label)
            | _ => none))) → x.1 = p.1 := by
    rintro ⟨i, oa⟩ x hx
    cases oa with
    | none => simp at hx
    | some ag =>
      rw [linksOfSites_eq] at hx
      obtain ⟨lbl, _, rfl⟩ := List.mem_map.mp hx
      rfl
  unfold patternIntLinks
  rw [List.map_flatten, List.map_map, List.nodup_flatten]
  constructor
  · intro l hl
    rw [List.mem_map] at hl
    obtain ⟨p, hp, rfl⟩ := hl
    obtain ⟨i, oa⟩ := p
    cases oa with
    | none => simp
    | some ag =>
      have hget : agents.get? i = some (some ag) := by
        rw [List.get?_eq_getElem?]
        exact List.mk_mem_enum_iff_getElem?.mp hp
      have hndlab := hlab i ag hget
      simp only [Function.comp_apply]
      rw [linksOfSites_eq]
      refine List.Nodup.map (fun a b h => congrArg Prod.snd h) ?_
      exact hndlab.sublist ((List.filter_sublist _).map _)
  · have hfst : List.Pairwise (fun p q : Nat × Option PAgent => p.1 ≠ q.1)
        agents.enum := by
      have h2 : List.Pairwise (fun a b : Nat => a ≠ b) (agents.enum.map Prod.fst) :=
        List.nodup_enum_map_fst agents
      exact List.pairwise_map.mp h2
    refine List.Pairwise.map _ ?_ hfst
    intro p q hpq x hxp hxq
    exact hpq ((hloc1 p x hxp) ▸ (hloc1 q x hxq) ▸ rfl)

/-- C7: `Pattern.__init__` succeeds exactly when every integer bond id in
the agent list appears on exactly two sites, and on success each such id is
replaced by reciprocal cross-references (the two carrying sites become each
other's partners) while every site without an integer bond id is unchanged.
The label-uniqueness hypothesis reflects that agent interfaces are
label-keyed dictionaries. -/
theorem Pattern_bond_resolution (agents : List (Option PAgent))
    (hlab : ∀ oa ∈ agents, ∀ ag, oa = some ag →
      (ag.sites.map (fun s => s.label)).Nodup) :
    ((∃ out, resolvePattern agents = .ok out) ↔
      ∀ n ∈ (patternIntLinks agents).map (fun t => t.1),
        ((patternIntLinks agents).filter (fun t => t.1 == n)).length = 2) ∧
    (∀ out, resolvePattern agents = .ok out →
      (∀ loc s, siteAt agents loc = some s → (∀ n, s.partner ≠ .link n) →
        siteAt out loc = some s) ∧
      (∀ n x y,
        ((patternIntLinks agents).filter (fun t => t.1 == n)).map (fun t => t.2)
          = [x, y] →
        ∃ sx sy, siteAt agents x = some sx ∧ siteAt agents y = some sy ∧
          siteAt out x = some { sx with partner := .ref y.1 y.2 } ∧
          siteAt out y = some { sy with partner := .ref x.1 x.2 })) := by
  have hlab' : ∀ i ag, agents.get? i = some (some ag) →
      (ag.sites.map (fun s => s.label)).Nodup := by
    intro i ag h
    exact hlab (some ag) (List.get?_mem h) ag rfl
  have hnd := patternIntLinks_locs_nodup agents hlab'
  constructor
  · unfold resolvePattern
    cases hres : linkUpdates (patternIntLinks agents)
        (keysInOrder ((patternIntLinks agents).map (fun t => t.1))) with
    | ok upds =>
      constructor
      · intro _ n hn
        exact (linkUpdates_isOk_iff _ _).mp ⟨upds, hres⟩ n
          ((mem_keysInOrder _ _).mpr hn)
      · intro _
        exact ⟨applyLinkUpdates agents upds, rfl⟩
    | error e =>
      constructor
      · rintro ⟨out, hout⟩; cases hout
      · intro h
        obtain ⟨u, hu⟩ := (linkUpdates_isOk_iff _ _).mpr
          (fun n hn => h n ((mem_keysInOrder _ _).mp hn))
        rw [hres] at hu
        cases hu
  · intro out hout
    revert hout
    unfold resolvePattern
    cases hres : linkUpdates (patternIntLinks agents)
        (keysInOrder ((patternIntLinks agents).map (fun t => t.1))) with
    | error e => intro hout; cases hout
    | ok upds =>
      intro hout
      injection hout with hout
      subst hout
      constructor
      · -- sites without an integer bond id are unchanged
        intro loc s hs hnl
        have hlbl : s.label = loc.2 := siteAt_label hs
        have hlocs : ∀ n, (n, ((loc.1, s.label) : Nat × String)) ∉
            patternIntLinks agents := by
          intro n hmem
          have hloceq : ((loc.1, s.label) : Nat × String) = loc := by
            rw [hlbl]
          rw [hloceq] at hmem
          obtain ⟨s', hs', hp'⟩ := mem_links_siteAt hlab' hmem
          rw [hs] at hs'
          injection hs' with hs'
          exact hnl n (hs' ▸ hp')
        rw [siteAt_applyLinkUpdates, hs]
        simp only [Option.map_some']
        rw [lookupUpd_not_linked _ _ _ hres _ hlocs]
      · -- the two sites of each bond group become each other's partners
        intro n x y hg
        have hxL : (n, x) ∈ patternIntLinks agents :=
          group_mem_links (by rw [hg]; simp)
        have hyL : (n, y) ∈ patternIntLinks agents :=
          group_mem_links (by rw [hg]; simp)
        obtain ⟨sx, hsx, hpx⟩ := mem_links_siteAt hlab' hxL
        obtain ⟨sy, hsy, hpy⟩ := mem_links_siteAt hlab' hyL
        have hn : n ∈ keysInOrder ((patternIntLinks agents).map (fun t => t.1)) :=
          (mem_keysInOrder _ _).mpr (List.mem_map.mpr ⟨(n, x), hxL, rfl⟩)
        have hpair := linkUpdates_covers _ _ _ hres n hn x y hg
        have hks := keysInOrder_nodup ((patternIntLinks agents).map (fun t => t.1))
        obtain ⟨hlx, hly⟩ := lookupUpd_of_mem _ hnd _ _ hks hres x y hpair
        refine ⟨sx, sy, hsx, hsy, ?_, ?_⟩
        · rw [siteAt_applyLinkUpdates, hsx]
          simp only [Option.map_some']
          have hxeq : ((x.1, sx.label) : Nat × String) = x := by
            rw [siteAt_label hsx]
          rw [hxeq, hlx]
        · rw [siteAt_applyLinkUpdates, hsy]
          simp only [Option.map_some']
          have hyeq : ((y.1, sy.label) : Nat × String) = y := by
            rw [siteAt_label hsy]
          rw [hyeq, hly]

/-- C7 witness: the pattern `A(x[1]), B(y[1])` resolves successfully. -/
theorem Pattern_bond_resolution_witness :
    ∃ out, resolvePattern
      [some ⟨"A", [⟨"x", "?", .link 1⟩]⟩,
       some ⟨"B", [⟨"y", "?", .link 1⟩]⟩] = .ok out :=
  ((Pattern_bond_resolution
    [some ⟨"A", [⟨"x", "?", .link 1⟩]⟩, some ⟨"B", [⟨"y", "?", .link 1⟩]⟩]
    (by decide)).1).mpr (by decide)

/-- C6 counterexample: `Site.embeds_in` accepts a concrete site whose bound
partner's label differs from the pattern site's label, which the claim as
stated forbids.  Pattern site `x` (bound to site `y` of an `A`-agent) matched
against concrete site `x` (bound to site `z` of an `A`-agent): the code
returns `True` while the claimed semantics demands `c.partner.label = p.label`
and so evaluates to false. -/
theorem Site_embeds_in_partner_label_counterexample :
    SiteV.embeds_in ⟨"x", "?", .ref "y" "A"⟩ ⟨"x", "s", .ref "z" "A"⟩ = true ∧
    SiteV.claimSemantics ⟨"x", "?", .ref "y" "A"⟩ ⟨"x", "s", .ref "z" "A"⟩ = false := by
  decide

/-- C6 amended: `Site.embeds_in` returns true exactly under the declared
predicate semantics, with the concrete-pattern-site-reference clause amended
so that it is the matched site's own label (not the concrete partner's label)
that must equal `p.label`: empty requires empty, a concrete state tag
requires equality, wildcard/undetermined impose no constraint, bound requires
a concrete partner, and a concrete pattern-site reference requires a concrete
partner whose owning agent's type equals the pattern partner's agent's type
together with label agreement between the two matched sites. -/
theorem Site_embeds_in_amended (p c : SiteV) :
    p.embeds_in c = p.amendedSemantics c := by
  rw [Bool.eq_iff_iff]
  unfold SiteV.embeds_in SiteV.amendedSemantics
  cases hp : p.partner <;> cases hc : c.partner <;>
    cases hst : p.stated <;>
      simp_all [PartnerV.isBound, PartnerV.isCoupled, beq_iff_eq] <;> tauto

/-- C6 amended, witness at a concrete input. -/
theorem Site_embeds_in_amended_witness :
    SiteV.embeds_in ⟨"x", "u", .empty⟩ ⟨"x", "u", .empty⟩ =
      SiteV.amendedSemantics ⟨"x", "u", .empty⟩ ⟨"x", "u", .empty⟩ :=
  Site_embeds_in_amended ⟨"x", "u", .empty⟩ ⟨"x", "u", .empty⟩

/-- C10: equality on `Counted`-derived sites, agents and components holds iff
the two operands carry the same globally assigned creation id; consequently
`Agent.detached` (whose clone receives fresh ids, all at or above the current
global counter) compares unequal to the original, and two agents created
separately (distinct ids, even if structurally identical) are both stored by
an id-keyed set, giving a count of two. -/
theorem Counted_identity_semantics (a b : AgentC) (ctr : Nat)
    (hfresh : a.cid < ctr) (hne : a.cid ≠ b.cid) :
    (∀ s t : SiteC, (s.pyEq t = true) ↔ s.cid = t.cid) ∧
    (∀ x y : AgentC, (x.pyEq y = true) ↔ x.cid = y.cid) ∧
    (∀ x y : ComponentC, (x.pyEq y = true) ↔ x.cid = y.cid) ∧
    (a.detached ctr).1.pyEq a = false ∧
    (pySetAddAgent (pySetAddAgent [] a) b).length = 2 := by
  refine ⟨fun s t => by simp [SiteC.pyEq], fun x y => by simp [AgentC.pyEq],
    fun x y => by simp [ComponentC.pyEq], ?_, ?_⟩
  · simp only [AgentC.detached, AgentC.pyEq, beq_eq_false_iff_ne, ne_eq]
    omega
  · simp [pySetAddAgent, AgentC.pyEq, hne, Ne.symm hne]

/-! ### Lemmas for the IndexedSet positional index -/

section ISetLemmas

variable {T : Type} [DecidableEq T]

/-- `find?` skips a prefix on which the predicate fails. -/
theorem find?_append_of_none {α : Type} {p : α → Bool} {l₁ l₂ : List α}
    (h : ∀ a ∈ l₁, ¬ p a) : (l₁ ++ l₂).find? p = l₂.find? p := by
  induction l₁ with
  | nil => rfl
  | cons a l ih =>
    rw [List.cons_append, List.find?_cons_of_neg _ (h a (by simp))]
    exact ih (fun b hb => h b (List.mem_cons_of_mem _ hb))

/-- `find?` over an append, by cases on the first part. -/
theorem find?_append_cases {α : Type} (p : α → Bool) (l₁ l₂ : List α) :
    (l₁ ++ l₂).find? p =
      match l₁.find? p with
      | some a => some a
      | none => l₂.find? p := by
  induction l₁ with
  | nil => rfl
  | cons a l ih =>
    by_cases h : p a
    · rw [List.cons_append, List.find?_cons_of_pos _ h, List.find?_cons_of_pos _ h]
    · rw [List.cons_append, List.find?_cons_of_neg _ h, List.find?_cons_of_neg _ h]
      exact ih

/-- Removing the entries of one key leaves other lookups unchanged. -/
theorem posGet_filter_ne {m : List (T × Nat)} {x y : T} (h : y ≠ x) :
    posGet (m.filter (fun p => !(p.1 == x))) y = posGet m y := by
  induction m with
  | nil => rfl
  | cons a l ih =>
    unfold posGet at ih ⊢
    rw [List.filter_cons]
    by_cases hax : a.1 = x
    · rw [if_neg (by simp [hax]), List.find?_cons_of_neg _ (by simp [hax, Ne.symm h])]
      exact ih
    · rw [if_pos (by simp [hax])]
      by_cases hay : a.1 = y
      · rw [List.find?_cons_of_pos _ (by simp [hay]),
          List.find?_cons_of_pos _ (by simp [hay])]
      · rw [List.find?_cons_of_neg _ (by simp [hay]),
          List.find?_cons_of_neg _ (by simp [hay])]
        exact ih

/-- A key has no binding after its entries are removed. -/
theorem posGet_filter_self (m : List (T × Nat)) (x : T) :
    posGet (m.filter (fun p => !(p.1 == x))) x = none := by
  unfold posGet
  rw [List.find?_eq_none.mpr]
  · rfl
  · intro p hp
    simpa using List.of_mem_filter hp

/-- Dict assignment binds the assigned key. -/
theorem posGet_posSet_self (m : List (T × Nat)) (k : T) (v : Nat) :
    posGet (posSet m k v) k = some v := by
  unfold posSet posGet
  rw [find?_append_of_none (fun p hp => by simpa using List.of_mem_filter hp),
    List.find?_cons_of_pos _ (by simp)]
  rfl

/-- Dict assignment leaves other keys unchanged. -/
theorem posGet_posSet_ne {k y : T} (h : y ≠ k) (m : List (T × Nat)) (v : Nat) :
    posGet (posSet m k v) y = posGet m y := by
  unfold posSet
  have h1 : posGet (m.filter (fun p => !(p.1 == k)) ++ [(k, v)]) y
      = posGet (m.filter (fun p => !(p.1 == k))) y := by
    unfold posGet
    rw [find?_append_cases]
    cases hf : List.find? (fun p => p.1 == y) (m.filter (fun p => !(p.1 == k))) with
    | none =>
      rw [List.find?_cons_of_neg _ (by simp [Ne.symm h])]
      rfl
    | some a => rfl
  rw [h1, posGet_filter_ne h]

/-- `posPop` restated as the filter it is. -/
theorem posGet_posPop_self (m : List (T × Nat)) (x : T) :
    posGet (posPop m x) x = none :=
  posGet_filter_self m x

theorem posGet_posPop_ne {x y : T} (h : y ≠ x) (m : List (T × Nat)) :
    posGet (posPop m x) y = posGet m y :=
  posGet_filter_ne h

/-- The empty `IndexedSet` is consistent. -/
theorem ISet.inv_empty : (ISet.empty T).Inv := by
  refine ⟨List.nodup_nil, ?_, ?_⟩ <;> simp [posGet, ISet.empty]

/-- The position map being the graph of the list forces the list to be
duplicate-free. -/
theorem ISet.inv_list_nodup {s : ISet T} (hinv : s.Inv) : s.item_list.Nodup := by
  obtain ⟨-, -, hpos⟩ := hinv
  rw [List.nodup_iff_injective_get]
  intro a b hab
  have ha : s.item_list[a.1]? = some (s.item_list.get a) :=
    List.getElem?_eq_getElem a.2
  have hb : s.item_list[b.1]? = some (s.item_list.get b) :=
    List.getElem?_eq_getElem b.2
  rw [hab] at ha
  have h1 := (hpos (s.item_list.get b) a.1).mpr ha
  have h2 := (hpos (s.item_list.get b) b.1).mpr hb
  rw [h1] at h2
  injection h2 with h2
  exact Fin.ext h2

/-- `add` preserves consistency. -/
theorem ISet.inv_add {s : ISet T} {x : T} {s' : ISet T} (hinv : s.Inv)
    (h : s.add x = some s') : s'.Inv := by
  unfold ISet.add at h
  by_cases hmem : x ∈ s.elems
  · rw [if_pos hmem] at h; cases h
  · rw [if_neg hmem] at h
    injection h with h
    subst h
    obtain ⟨hnd, hdom, hpos⟩ := hinv
    have hxl : ∀ i : Nat, ¬ s.item_list[i]? = some x := by
      intro i hi
      exact hmem ((hdom x).mpr ⟨i, (hpos x i).mpr hi⟩)
    refine ⟨?_, ?_, ?_⟩
    · rw [List.nodup_append]
      refine ⟨hnd, List.nodup_singleton x, ?_⟩
      intro a ha hax
      rw [List.mem_singleton] at hax
      exact hmem (hax ▸ ha)
    · intro y
      by_cases hyx : y = x
      · subst hyx
        simp [posGet_posSet_self]
      · rw [posGet_posSet_ne hyx]
        simp only [List.mem_append, List.mem_singleton, hyx, or_false]
        exact hdom y
    · intro y i
      by_cases hyx : y = x
      · subst hyx
        rw [posGet_posSet_self]
        constructor
        · intro hsome
          injection hsome with hsome
          subst hsome
          rw [List.getElem?_append]
          simp
        · intro hget
          rw [List.getElem?_append] at hget
          split at hget
          · exact absurd hget (hxl i)
          · next hge =>
            have h0 : i - s.item_list.length = 0 := by
              by_contra hne
              rw [show i - s.item_list.length = (i - s.item_list.length - 1) + 1
                from by omega] at hget
              simp at hget
            have : i = s.item_list.length := by omega
            rw [this]
      · rw [posGet_posSet_ne hyx, hpos y i, List.getElem?_append]
        split
        · exact Iff.rfl
        · next hge =>
          constructor
          · intro hget
            have hnone : s.item_list[i]? = none := List.getElem?_eq_none (by omega)
            rw [hnone] at hget
            cases hget
          · intro hget
            exfalso
            rcases Nat.eq_zero_or_pos (i - s.item_list.length) with h0 | hp
            · rw [h0] at hget
              simp at hget
              exact hyx hget.symm
            · rw [show i - s.item_list.length = (i - s.item_list.length - 1) + 1
                from by omega] at hget
              simp at hget

/-- `remove` preserves consistency. -/
theorem ISet.inv_remove {s : ISet T} {x : T} {s' : ISet T} (hinv : s.Inv)
    (h : s.remove x = some s') : s'.Inv := by
  obtain ⟨hnd, hdom, hpos⟩ := hinv
  unfold ISet.remove at h
  by_cases hmem : x ∈ s.elems
  swap
  · rw [if_neg hmem] at h; cases h
  rw [if_pos hmem] at h
  split at h
  case _ pos last hpg hgl =>
    have hx : s.item_list[pos]? = some x := (hpos x pos).mp hpg
    have hlast : s.item_list[s.item_list.length - 1]? = some last := by
      rw [← List.getLast?_eq_getElem?]; exact hgl
    have hposlt : pos < s.item_list.length := by
      by_contra hc
      have hnone : s.item_list[pos]? = none := List.getElem?_eq_none (by omega)
      rw [hnone] at hx
      cases hx
    have hpglast : posGet s.item_to_pos last = some (s.item_list.length - 1) :=
      (hpos last _).mpr hlast
    by_cases hbr : pos = s.item_list.dropLast.length
    · -- removing the last-positioned element: no swap
      rw [if_neg (by simpa using hbr)] at h
      injection h with h
      subst h
      rw [List.length_dropLast] at hbr
      have hxlast : x = last := by
        rw [hbr, hlast] at hx
        injection hx with hx2
        exact hx2.symm
      refine ⟨hnd.erase x, ?_, ?_⟩
      · intro y
        rw [List.Nodup.mem_erase_iff hnd]
        by_cases hyx : y = x
        · rw [hyx, posGet_posPop_self]
          simp
        · rw [posGet_posPop_ne hyx]
          simp only [ne_eq, hyx, not_false_iff, true_and]
          exact hdom y
      · intro y i
        by_cases hyx : y = x
        · rw [hyx, posGet_posPop_self]
          constructor
          · intro hc; cases hc
          · intro hc
            rw [List.getElem?_dropLast] at hc
            split at hc
            · next hilt =>
              have := (hpos x i).mpr hc
              rw [hpg] at this
              injection this with this
              omega
            · cases hc
        · rw [posGet_posPop_ne hyx, hpos y i, List.getElem?_dropLast]
          split
          · exact Iff.rfl
          · next hge =>
            constructor
            · intro hc
              have hilt : i < s.item_list.length := by
                by_contra hc2
                have hnone : s.item_list[i]? = none :=
                  List.getElem?_eq_none (by omega)
                rw [hnone] at hc
                cases hc
              have hieq : i = s.item_list.length - 1 := by omega
              rw [hieq, hlast] at hc
              injection hc with hc2
              exact absurd (hc2.symm ▸ hxlast.symm : y = x) hyx
            · intro hc; cases hc
    · -- swap-pop: the last element fills the vacated slot
      rw [if_pos (by simpa using hbr)] at h
      injection h with h
      subst h
      rw [List.length_dropLast] at hbr
      have hposlt1 : pos < s.item_list.length - 1 := by omega
      have hxlast : x ≠ last := by
        intro hc
        rw [hc, hpglast] at hpg
        injection hpg with hpg2
        omega
      refine ⟨hnd.erase x, ?_, ?_⟩
      · intro y
        rw [List.Nodup.mem_erase_iff hnd]
        by_cases hylast : y = last
        · rw [hylast, posGet_posSet_self]
          constructor
          · intro _
            exact ⟨pos, rfl⟩
          · intro _
            exact ⟨Ne.symm hxlast, (hdom last).mpr ⟨_, hpglast⟩⟩
        · rw [posGet_posSet_ne hylast]
          by_cases hyx : y = x
          · rw [hyx, posGet_posPop_self]
            simp
          · rw [posGet_posPop_ne hyx]
            simp only [ne_eq, hyx, not_false_iff, true_and]
            exact hdom y
      · intro y i
        rw [List.getElem?_set]
        by_cases hylast : y = last
        · rw [hylast, posGet_posSet_self]
          constructor
          · intro hc
            injection hc with hc2
            subst hc2
            rw [if_pos rfl, if_pos (by rw [List.length_dropLast]; omega)]
          · split
            · next hpi =>
              rw [if_pos (by rw [List.length_dropLast]; omega)]
              intro _
              rw [hpi]
            · next hpi =>
              rw [List.getElem?_dropLast]
              split
              · next hilt =>
                intro hc
                have := (hpos last i).mpr hc
                rw [hpglast] at this
                injection this with this
                omega
              · intro hc; cases hc
        · rw [posGet_posSet_ne hylast]
          by_cases hyx : y = x
          · rw [hyx, posGet_posPop_self]
            constructor
            · intro hc; cases hc
            · split
              · next hpi =>
                rw [if_pos (by rw [List.length_dropLast]; omega)]
                intro hc
                injection hc with hc2
                exact absurd hc2.symm hxlast
              · next hpi =>
                rw [List.getElem?_dropLast]
                split
                · next hilt =>
                  intro hc
                  have := (hpos x i).mpr hc
                  rw [hpg] at this
                  injection this with this
                  exact absurd this hpi
                · intro hc; cases hc
          · rw [posGet_posPop_ne hyx, hpos y i]
            split
            · next hpi =>
              rw [if_pos (by rw [List.length_dropLast]; omega)]
              constructor
              · intro hc
                rw [← hpi, hx] at hc
                injection hc with hc2
                exact absurd hc2.symm hyx
              · intro hc
                injection hc with hc2
                exact absurd hc2.symm hylast
            · next hpi =>
              rw [List.getElem?_dropLast]
              split
              · exact Iff.rfl
              · next hge =>
                constructor
                · intro hc
                  have hilt : i < s.item_list.length := by
                    by_contra hc2
                    have hnone : s.item_list[i]? = none :=
                      List.getElem?_eq_none (by omega)
                    rw [hnone] at hc
                    cases hc
                  have hieq : i = s.item_list.length - 1 := by omega
                  rw [hieq, hlast] at hc
                  injection hc with hc2
                  exact absurd hc2.symm hylast
                · intro hc; cases hc
  case _ =>
    cases h
/-- A single successful operation preserves consistency. -/
theorem ISet.inv_step {s : ISet T} {op : ISetOp T} {s' : ISet T} (hinv : s.Inv)
    (h : ISet.step s op = some s') : s'.Inv := by
  cases op with
  | add x => exact ISet.inv_add hinv h
  | remove x => exact ISet.inv_remove hinv h

/-- The fold over operations never recovers from a failure. -/
theorem ISet.foldl_none (ops : List (ISetOp T)) :
    ops.foldl (fun acc op => acc.bind (fun s => ISet.step s op)) none = none := by
  induction ops with
  | nil => rfl
  | cons op ops ih => simpa using ih

/-- Consistency is preserved along any successful operation sequence. -/
theorem ISet.foldl_inv : ∀ (ops : List (ISetOp T)) (s0 s : ISet T), s0.Inv →
    ops.foldl (fun acc op => acc.bind (fun t => ISet.step t op)) (some s0)
      = some s → s.Inv
  | [], s0, s, h0, h => by
    simp only [List.foldl_nil] at h
    injection h with h
    exact h ▸ h0
  | op :: ops, s0, s, h0, h => by
    simp only [List.foldl_cons, Option.some_bind] at h
    cases hstep : ISet.step s0 op with
    | none =>
      rw [hstep, ISet.foldl_none] at h
      cases h
    | some s1 =>
      rw [hstep] at h
      exact ISet.foldl_inv ops s1 s (ISet.inv_step h0 hstep) h

/-- Any state reached from the empty set is consistent. -/
theorem ISet.run_inv {ops : List (ISetOp T)} {s : ISet T}
    (h : ISet.run ops = some s) : s.Inv :=
  ISet.foldl_inv ops (ISet.empty T) s ISet.inv_empty h

/-- C5: along any sequence of `add`/`remove` operations from the empty
`IndexedSet` (each respecting its assertion precondition: `add` requires
absence, `remove` requires presence; a violation stops the run), the
positional index stays consistent with the set: the backing `_item_list`
holds exactly the set's elements without duplicates, for every member the
list entry at its stored position is that member, `__getitem__` with
`0 ≤ i < len` returns the list entry at position `i`, and a `remove` that
vacates a non-final position moves the last-positioned element into it. -/
theorem IndexedSet_positional_integrity (ops : List (ISetOp T)) (s : ISet T)
    (hrun : ISet.run ops = some s) :
    (s.item_list.Nodup ∧ ∀ y, y ∈ s.elems ↔ y ∈ s.item_list) ∧
    (∀ y ∈ s.elems, ∃ i, posGet s.item_to_pos y = some i ∧
      s.item_list[i]? = some y) ∧
    (∀ i : Nat, i < s.elems.length → s.getitem i = s.item_list[i]?) ∧
    (∀ x s₂ p last, s.remove x = some s₂ → posGet s.item_to_pos x = some p →
      s.item_list.getLast? = some last → p ≠ s.item_list.length - 1 →
      s₂.item_list[p]? = some last) := by
  obtain ⟨hnd, hdom, hpos⟩ := ISet.run_inv hrun
  have hLnd := ISet.inv_list_nodup ⟨hnd, hdom, hpos⟩
  refine ⟨⟨hLnd, ?_⟩, ?_, ?_, ?_⟩
  · intro y
    rw [hdom y]
    constructor
    · rintro ⟨i, hi⟩
      exact List.mem_iff_getElem?.mpr ⟨i, (hpos y i).mp hi⟩
    · intro hy
      obtain ⟨i, hi⟩ := List.mem_iff_getElem?.mp hy
      exact ⟨i, (hpos y i).mpr hi⟩
  · intro y hy
    obtain ⟨i, hi⟩ := (hdom y).mp hy
    exact ⟨i, hi, (hpos y i).mp hi⟩
  · intro i hi
    unfold ISet.getitem
    rw [if_pos hi]
  · intro x s₂ p last hrem hp hl hne
    unfold ISet.remove at hrem
    by_cases hmem : x ∈ s.elems
    swap
    · rw [if_neg hmem] at hrem; cases hrem
    rw [if_pos hmem] at hrem
    split at hrem
    case _ pos' last' hpg' hgl' =>
      have hpp : pos' = p := by
        rw [hp] at hpg'
        injection hpg' with h2
        exact h2.symm
      have hll : last' = last := by
        rw [hl] at hgl'
        injection hgl' with h2
        exact h2.symm
      subst hpp
      subst hll
      have hxL : s.item_list[pos']? = some x := (hpos x pos').mp hp
      have hplt : pos' < s.item_list.length := by
        by_contra hc
        have hnone : s.item_list[pos']? = none := List.getElem?_eq_none (by omega)
        rw [hnone] at hxL
        cases hxL
      rw [if_pos (by rw [List.length_dropLast]; omega)] at hrem
      injection hrem with hrem
      subst hrem
      rw [List.getElem?_set, if_pos rfl,
        if_pos (by rw [List.length_dropLast]; omega)]
    case _ =>
      cases hrem

end ISetLemmas

/-- C5 witness: running `add 1; add 2; remove 1` from the empty set swaps
element 2 into position 0 and reaches the state `⟨[2], [2], [(2, 0)]⟩`. -/
theorem IndexedSet_positional_integrity_witness :
    ((⟨[2], [2], [(2, 0)]⟩ : ISet Nat).item_list.Nodup ∧
      ∀ y, y ∈ (⟨[2], [2], [(2, 0)]⟩ : ISet Nat).elems ↔
        y ∈ (⟨[2], [2], [(2, 0)]⟩ : ISet Nat).item_list) :=
  (IndexedSet_positional_integrity
    [ISetOp.add 1, ISetOp.add 2, ISetOp.remove 1]
    ⟨[2], [2], [(2, 0)]⟩ (by rfl)).1

/-- C10 witness: concrete agents with ids 0 and 1 and global counter 5. -/
theorem Counted_identity_semantics_witness :
    (AgentC.mk 0 "A" []).cid < 5 ∧
    (AgentC.mk 0 "A" []).cid ≠ (AgentC.mk 1 "A" []).cid ∧
    ((AgentC.mk 0 "A" []).detached 5).1.pyEq (AgentC.mk 0 "A" []) = false ∧
    (pySetAddAgent (pySetAddAgent [] (AgentC.mk 0 "A" []))
      (AgentC.mk 1 "A" [])).length = 2 :=
  ⟨by decide, by decide,
    (Counted_identity_semantics (AgentC.mk 0 "A" []) (AgentC.mk 1 "A" []) 5
      (by decide) (by decide)).2.2.2.1,
    (Counted_identity_semantics (AgentC.mk 0 "A" []) (AgentC.mk 1 "A" []) 5
      (by decide) (by decide)).2.2.2.2⟩

/-- C8: `MixtureUpdate.remove_agent` contradicts the claim.  The claim says
removal succeeds for agents with bound sites and schedules one edge removal
per bound site in `edges_to_remove`; but `edges_to_remove` is initialised as
a `set`, which has no `append` method, so the first bound site raises
`AttributeError` — and for a fully detached agent the method succeeds having
scheduled no edge removals at all (there being none to schedule, the claim
and code agree only there). -/
theorem MixtureUpdate_remove_agent_attribute_error :
    (MixtureUpdateM.remove_agent MixtureUpdateM.empty 0
        ⟨"A", [⟨"x", .undet, .ref ⟨1, "y"⟩⟩]⟩ =
      .error (.attributeError "set object has no attribute append")) ∧
    (MixtureUpdateM.remove_agent MixtureUpdateM.empty 0
        ⟨"A", [⟨"x", .undet, .empty⟩]⟩ =
      .ok ⟨[], [0], [], [], []⟩) :=
  ⟨rfl, rfl⟩

/-- Helper: a successfully constructed rule caches the connected components
of its left pattern. -/
theorem mkKappaRule_ok_components {name : String} {left right : PatternM}
    {pidStart : Nat} {r : KappaRuleM}
    (h : mkKappaRule name left right pidStart = .ok r) :
    r.leftComponents = patternComponents left.pmap pidStart := by
  unfold mkKappaRule at h
  split at h
  · cases h
  · injection h with h
    rw [← h]

/-- C2: for a default rule (as built by the `KappaRule` constructor),
`n_embeddings_default` equals the product, over the connected components of
the left pattern, of the number of cached embeddings of that component in
the mixture — the empty product being 1 for a component-free left pattern. -/
theorem n_embeddings_default_is_product (name : String) (left right : PatternM)
    (pidStart : Nat) (r : KappaRuleM) (m : MixtureM)
    (h : mkKappaRule name left right pidStart = .ok r) :
    r.leftComponents = patternComponents left.pmap pidStart ∧
    r.n_embeddings_default m =
      ((patternComponents left.pmap pidStart).map
        (fun c => ((m.fetch_embeddings c).length : Int))).prod := by
  have hc := mkKappaRule_ok_components h
  refine ⟨hc, ?_⟩
  rw [KappaRuleM.n_embeddings_default, hc, List.prod_eq_foldl, List.foldl_map]

/-- C2 witness: a one-component rule over a mixture caching two embeddings
of that component gives the product 2. -/
theorem n_embeddings_default_is_product_witness :
    (⟨"r", ⟨[some (0, ⟨"A", []⟩)]⟩, ⟨[some (0, ⟨"A", []⟩)]⟩,
        [⟨5, [(0, ⟨"A", []⟩)]⟩]⟩ : KappaRuleM).leftComponents =
      patternComponents (⟨[some (0, ⟨"A", []⟩)]⟩ : PatternM).pmap 5 ∧
    (⟨"r", ⟨[some (0, ⟨"A", []⟩)]⟩, ⟨[some (0, ⟨"A", []⟩)]⟩,
        [⟨5, [(0, ⟨"A", []⟩)]⟩]⟩ : KappaRuleM).n_embeddings_default
      ⟨[1, 2], [(1, ⟨"A", []⟩), (2, ⟨"A", []⟩)], [("A", [1, 2])],
        [⟨0, [1]⟩, ⟨1, [2]⟩], [(1, 0), (2, 1)], 3, 2,
        [(⟨5, [(0, ⟨"A", []⟩)]⟩, [[(0, 1)], [(0, 2)]])], []⟩ =
      ((patternComponents (⟨[some (0, ⟨"A", []⟩)]⟩ : PatternM).pmap 5).map
        (fun c => (((⟨[1, 2], [(1, ⟨"A", []⟩), (2, ⟨"A", []⟩)], [("A", [1, 2])],
          [⟨0, [1]⟩, ⟨1, [2]⟩], [(1, 0), (2, 1)], 3, 2,
          [(⟨5, [(0, ⟨"A", []⟩)]⟩, [[(0, 1)], [(0, 2)]])], []⟩ :
            MixtureM).fetch_embeddings c).length : Int))).prod :=
  n_embeddings_default_is_product "r" ⟨[some (0, ⟨"A", []⟩)]⟩
    ⟨[some (0, ⟨"A", []⟩)]⟩ 5
    ⟨"r", ⟨[some (0, ⟨"A", []⟩)]⟩, ⟨[some (0, ⟨"A", []⟩)]⟩,
      [⟨5, [(0, ⟨"A", []⟩)]⟩]⟩
    ⟨[1, 2], [(1, ⟨"A", []⟩), (2, ⟨"A", []⟩)], [("A", [1, 2])],
      [⟨0, [1]⟩, ⟨1, [2]⟩], [(1, 0), (2, 1)], 3, 2,
      [(⟨5, [(0, ⟨"A", []⟩)]⟩, [[(0, 1)], [(0, 2)]])], []⟩
    (by rfl)

/-- C3: for a bimolecular rule, the constructor enforces that the left
pattern has exactly two connected components `c1, c2`, and `n_embeddings`
equals the sum over the mixture's connected components `M` of
`|embeddings_in_component(c1, M)| * (|embeddings(c2)| −
|embeddings_in_component(c2, M)|)`. -/
theorem n_embeddings_bimolecular_is_sum (name : String) (left right : PatternM)
    (pidStart : Nat) (r : KappaRuleM) (m : MixtureM)
    (h : mkKappaRuleBimolecular name left right pidStart = .ok r) :
    ∃ c1 c2, r.leftComponents = [c1, c2] ∧
      patternComponents left.pmap pidStart = [c1, c2] ∧
      r.n_embeddings_bimolecular m =
        (m.components.map (fun comp =>
          ((m.fetch_embeddings_in_component c1 comp).length : Int) *
            (((m.fetch_embeddings c2).length : Int) -
              ((m.fetch_embeddings_in_component c2 comp).length : Int)))).sum := by
  unfold mkKappaRuleBimolecular at h
  split at h
  · cases h
  case _ r₀ heq =>
    split at h
    · cases h
    case _ hlen =>
      injection h with h
      have hc := mkKappaRule_ok_components heq
      have hlen2 : r₀.leftComponents.length = 2 := by
        simpa using hlen
      obtain ⟨c1, c2, hl⟩ := List.length_eq_two.mp hlen2
      refine ⟨c1, c2, by rw [← h, hl], by rw [← hc, hl], ?_⟩
      rw [← h, KappaRuleM.n_embeddings_bimolecular, hl, List.sum_eq_foldl,
        List.foldl_map]
      simp only [List.getD_cons_zero, List.getD_cons_succ]

/-- C3 witness: a two-component rule over the empty mixture (both sums are
0). -/
theorem n_embeddings_bimolecular_is_sum_witness :
    ∃ c1 c2,
      (⟨"r", ⟨[some (0, ⟨"A", []⟩), some (1, ⟨"A", []⟩)]⟩,
          ⟨[some (0, ⟨"A", []⟩), some (1, ⟨"A", []⟩)]⟩,
          [⟨5, [(0, ⟨"A", []⟩)]⟩, ⟨6, [(1, ⟨"A", []⟩)]⟩]⟩ :
        KappaRuleM).leftComponents = [c1, c2] ∧
      patternComponents
        (⟨[some (0, ⟨"A", []⟩), some (1, ⟨"A", []⟩)]⟩ : PatternM).pmap 5 =
        [c1, c2] ∧
      (⟨"r", ⟨[some (0, ⟨"A", []⟩), some (1, ⟨"A", []⟩)]⟩,
          ⟨[some (0, ⟨"A", []⟩), some (1, ⟨"A", []⟩)]⟩,
          [⟨5, [(0, ⟨"A", []⟩)]⟩, ⟨6, [(1, ⟨"A", []⟩)]⟩]⟩ :
        KappaRuleM).n_embeddings_bimolecular
        ⟨[], [], [], [], [], 0, 0, [], []⟩ =
        (((⟨[], [], [], [], [], 0, 0, [], []⟩ : MixtureM).components).map
          (fun comp =>
            (((⟨[], [], [], [], [], 0, 0, [], []⟩ :
                MixtureM).fetch_embeddings_in_component c1 comp).length : Int) *
              ((((⟨[], [], [], [], [], 0, 0, [], []⟩ :
                  MixtureM).fetch_embeddings c2).length : Int) -
                (((⟨[], [], [], [], [], 0, 0, [], []⟩ :
                    MixtureM).fetch_embeddings_in_component c2 comp).length :
                  Int)))).sum :=
  n_embeddings_bimolecular_is_sum "r"
    ⟨[some (0, ⟨"A", []⟩), some (1, ⟨"A", []⟩)]⟩
    ⟨[some (0, ⟨"A", []⟩), some (1, ⟨"A", []⟩)]⟩ 5
    ⟨"r", ⟨[some (0, ⟨"A", []⟩), some (1, ⟨"A", []⟩)]⟩,
      ⟨[some (0, ⟨"A", []⟩), some (1, ⟨"A", []⟩)]⟩,
      [⟨5, [(0, ⟨"A", []⟩)]⟩, ⟨6, [(1, ⟨"A", []⟩)]⟩]⟩
    ⟨[], [], [], [], [], 0, 0, [], []⟩
    (by rfl)

/-! ### Lemmas for `KappaRule.select` and `System.apply_rule` -/

/-- Bumping a rule's tally changes exactly that rule's pair. -/
theorem tallyOf_bump_self (t : List (String × Nat × Nat)) (name : String)
    (applied : Bool) :
    tallyOf (tallyBump t name applied) name =
      (if applied then ((tallyOf t name).1 + 1, (tallyOf t name).2)
       else ((tallyOf t name).1, (tallyOf t name).2 + 1)) := by
  unfold tallyBump
  cases hf : t.find? (fun p => p.1 == name) with
  | none =>
    rw [if_neg (by simp [hf])]
    unfold tallyOf
    rw [find?_append_cases, hf]
    simp only [List.find?_cons, beq_self_eq_true]
    cases applied <;> simp
  | some p =>
    rw [if_pos (by simp [hf])]
    have hp : (p.1 == name) = true := by
      have := List.find?_some hf
      simpa using this
    unfold tallyOf
    rw [List.find?_map, show ((fun q : String × Nat × Nat => q.1 == name) ∘
        (fun q : String × Nat × Nat =>
          if q.1 == name then
            (q.1, if applied then (q.2.1 + 1, q.2.2) else (q.2.1, q.2.2 + 1))
          else q)) = (fun q : String × Nat × Nat => q.1 == name) from by
      funext q
      cases hq : q.1 == name <;> simp [Function.comp, hq]]
    rw [hf]
    simp only [Option.map_map, Option.map_some', Function.comp, hp, if_true]
    cases applied <;> simp

/-- Bumping a rule's tally leaves every other rule's pair unchanged. -/
theorem tallyOf_bump_other (t : List (String × Nat × Nat)) (name n : String)
    (applied : Bool) (hne : n ≠ name) :
    tallyOf (tallyBump t name applied) n = tallyOf t n := by
  unfold tallyBump
  cases hf : t.find? (fun p => p.1 == name) with
  | none =>
    rw [if_neg (by simp [hf])]
    unfold tallyOf
    rw [find?_append_cases]
    cases hn : t.find? (fun p => p.1 == n) with
    | none =>
      simp [List.find?_cons, beq_eq_false_iff_ne.mpr (Ne.symm hne)]
    | some q => rfl
  | some p =>
    rw [if_pos (by simp [hf])]
    unfold tallyOf
    rw [List.find?_map, show ((fun q : String × Nat × Nat => q.1 == n) ∘
        (fun q : String × Nat × Nat =>
          if q.1 == name then
            (q.1, if applied then (q.2.1 + 1, q.2.2) else (q.2.1, q.2.2 + 1))
          else q)) = (fun q : String × Nat × Nat => q.1 == n) from by
      funext q
      cases hq : q.1 == name <;> simp [Function.comp, hq]]
    cases hn : t.find? (fun p => p.1 == n) with
    | none => rfl
    | some q =>
      have hq : q.1 = n := by
        have := List.find?_some hn
        exact eq_of_beq (by simpa using this)
      have hqname : q.1 ≠ name := fun hcontra => hne (hq ▸ hcontra)
      simp [hqname]

/-- The selection-map insertion succeeds, appending the embedding, exactly
when the accumulated host values stay duplicate-free. -/
theorem addSelection_spec (e : Emb) : ∀ (smap : List (Nat × Nat)),
    (smap.map (fun p => p.2)).Nodup →
    addSelection smap e =
      if (smap.map (fun p => p.2) ++ e.map (fun p => p.2)).Nodup
      then some (smap ++ e) else none := by
  induction e with
  | nil =>
    intro smap h
    unfold addSelection
    rw [if_pos (by simpa using h), List.append_nil]
  | cons kv rest ih =>
    intro smap h
    unfold addSelection
    by_cases hany : smap.any (fun p => p.2 == kv.2) = true
    · rw [if_pos hany, if_neg]
      intro hnd
      rcases List.any_eq_true.mp hany with ⟨p, hp, hpe⟩
      have hv : kv.2 ∈ smap.map (fun q => q.2) :=
        List.mem_map.mpr ⟨p, hp, by simpa using hpe⟩
      exact (List.disjoint_of_nodup_append hnd) hv (by simp)
    · rw [if_neg hany]
      have hnotin : kv.2 ∉ smap.map (fun p => p.2) := by
        intro hmem
        rcases List.mem_map.mp hmem with ⟨p, hp, hpe⟩
        exact hany (List.any_eq_true.mpr ⟨p, hp, by simp [hpe]⟩)
      have h' : ((smap ++ [kv]).map (fun p => p.2)).Nodup := by
        rw [List.map_append, List.nodup_append]
        refine ⟨h, by simp, ?_⟩
        intro a ha hax
        simp only [List.map_cons, List.map_nil, List.mem_singleton] at hax
        exact hnotin (hax ▸ ha)
      rw [ih (smap ++ [kv]) h', List.map_append, List.append_assoc]
      simp only [List.map_cons, List.map_nil, List.singleton_append,
        List.cons_append, List.nil_append, List.append_assoc]

/-- The component loop of `select` returns the null event exactly when the
chosen host values (appended to the accumulated ones) repeat, provided every
component has a nonempty cached embedding list. -/
theorem selectLoop_spec (m : MixtureM) (cs : List ComponentPat) :
    ∀ (draws : List Nat) (smap : List (Nat × Nat)),
    (smap.map (fun p => p.2)).Nodup →
    (∀ c ∈ cs, m.fetch_embeddings c ≠ []) →
    (selectLoop m cs draws smap = .ok none ↔
      ¬ (smap.map (fun p => p.2) ++ chosenValues m cs draws).Nodup) := by
  induction cs with
  | nil =>
    intro draws smap h _
    unfold selectLoop
    constructor
    · intro hh
      simp at hh
    · intro hh
      exact absurd (by simpa [chosenValues, chosenEmbeddings] using h) hh
  | cons c cs ih =>
    intro draws smap h hne
    have hcne := hne c (List.mem_cons_self c cs)
    have hlen : ((m.fetch_embeddings c).length == 0) = false := by
      rw [beq_eq_false_iff_ne]
      simpa [Ne, List.length_eq_zero] using hcne
    unfold selectLoop
    rw [if_neg (by simp [hlen])]
    have hvals : chosenValues m (c :: cs) draws =
        ((m.fetch_embeddings c).getD
            ((draws.headD 0) % (m.fetch_embeddings c).length) []).map
              (fun p => p.2) ++
          chosenValues m cs draws.tail := by
      unfold chosenValues
      rw [show chosenEmbeddings m (c :: cs) draws =
          (m.fetch_embeddings c).getD
            ((draws.headD 0) % (m.fetch_embeddings c).length) [] ::
            chosenEmbeddings m cs draws.tail from rfl,
        List.flatMap_cons]
    rw [addSelection_spec _ smap h]
    by_cases hnd1 : (smap.map (fun p => p.2) ++
        ((m.fetch_embeddings c).getD
          ((draws.headD 0) % (m.fetch_embeddings c).length) []).map
            (fun p => p.2)).Nodup
    · rw [if_pos hnd1]
      have h' : ((smap ++ (m.fetch_embeddings c).getD
          ((draws.headD 0) % (m.fetch_embeddings c).length) []).map
            (fun p => p.2)).Nodup := by
        rw [List.map_append]
        exact hnd1
      rw [ih draws.tail _ h' (fun x hx => hne x (List.mem_cons_of_mem _ hx)),
        hvals, List.map_append, List.append_assoc]
    · rw [if_neg hnd1]
      constructor
      · intro _
        rw [hvals]
        intro hfull
        exact hnd1 (hfull.sublist (by
          rw [← List.append_assoc]
          exact List.sublist_append_left _ _))
      · intro _
        rfl

/-- C4: if `rule.select` returns the null event, `apply_rule` increments
that rule's failed tally by one and leaves the mixture and the cached rule
reactivities untouched; if it returns an update, `apply_rule` applies it to
the mixture, increments the applied tally by one, and invalidates the
cached reactivities; moreover `select` is the null event exactly when its
component loop is, which — whenever every left component has a nonempty
cached embedding list — happens exactly when the independently chosen
per-component embeddings map two pattern agents to the same host agent
(a repeated value among the chosen hosts). -/
theorem System_apply_rule_spec (sys : SystemM) (r : KappaRuleM)
    (draws : List Nat) :
    (∀ m', r.select sys.mixture draws = .ok (none, m') →
      sys.apply_rule r draws =
        .ok ⟨sys.mixture, tallyBump sys.tallies r.name false,
          sys.ruleReactivities⟩ ∧
      tallyOf (tallyBump sys.tallies r.name false) r.name =
        ((tallyOf sys.tallies r.name).1, (tallyOf sys.tallies r.name).2 + 1) ∧
      (∀ n, n ≠ r.name →
        tallyOf (tallyBump sys.tallies r.name false) n =
          tallyOf sys.tallies n)) ∧
    (∀ u m' m₂, r.select sys.mixture draws = .ok (some u, m') →
      m'.apply_update u = .ok m₂ → sys.ruleReactivities = some () →
      sys.apply_rule r draws =
        .ok ⟨m₂, tallyBump sys.tallies r.name true, none⟩ ∧
      tallyOf (tallyBump sys.tallies r.name true) r.name =
        ((tallyOf sys.tallies r.name).1 + 1, (tallyOf sys.tallies r.name).2) ∧
      (∀ n, n ≠ r.name →
        tallyOf (tallyBump sys.tallies r.name true) n =
          tallyOf sys.tallies n)) ∧
    (∀ m', r.select sys.mixture draws = .ok (none, m') →
      selectLoop sys.mixture r.leftComponents draws [] = .ok none) ∧
    (selectLoop sys.mixture r.leftComponents draws [] = .ok none →
      r.select sys.mixture draws = .ok (none, sys.mixture)) ∧
    ((∀ c ∈ r.leftComponents, sys.mixture.fetch_embeddings c ≠ []) →
      (selectLoop sys.mixture r.leftComponents draws [] = .ok none ↔
        ¬ (chosenValues sys.mixture r.leftComponents draws).Nodup)) := by
  refine ⟨?_, ?_, ?_, ?_, ?_⟩
  · intro m' hsel
    refine ⟨?_, by simpa using tallyOf_bump_self sys.tallies r.name false,
      fun n hn => tallyOf_bump_other sys.tallies r.name n false hn⟩
    simp only [SystemM.apply_rule, hsel]
  · intro u m' m₂ hsel happ hr
    refine ⟨?_, by simpa using tallyOf_bump_self sys.tallies r.name true,
      fun n hn => tallyOf_bump_other sys.tallies r.name n true hn⟩
    simp only [SystemM.apply_rule, hsel, happ, hr]
  · intro m' h
    unfold KappaRuleM.select at h
    split at h
    · cases h
    · next heq => exact heq
    · split at h
      · cases h
      · simp at h
  · intro h
    unfold KappaRuleM.select
    rw [h]
  · intro hne
    have := selectLoop_spec sys.mixture r.leftComponents draws []
      (by simp) hne
    simpa using this

/-- C4 witness: (i) the empty rule over the empty mixture takes the applied
branch (its sole selection is the empty update, applied successfully);
(ii) a two-component rule whose two chosen embeddings collide on the single
host agent takes the failed branch, and the collision is equivalent to the
repeated chosen host value. -/
theorem System_apply_rule_spec_witness :
    (SystemM.apply_rule ⟨mixNil, [], some ()⟩ ruleNil [] =
      .ok ⟨mixNil, tallyBump [] "r" true, none⟩) ∧
    (SystemM.apply_rule ⟨mixOne, [], some ()⟩ ruleTwo [0, 0] =
      .ok ⟨mixOne, tallyBump [] "s" false, some ()⟩) ∧
    (KappaRuleM.select ruleTwo mixOne [0, 0] = .ok (none, mixOne)) ∧
    ¬ (chosenValues mixOne ruleTwo.leftComponents [0, 0]).Nodup :=
  ⟨((System_apply_rule_spec ⟨mixNil, [], some ()⟩ ruleNil []).2.1
      MixtureUpdateM.empty mixNil mixNil rfl rfl rfl).1,
   ((System_apply_rule_spec ⟨mixOne, [], some ()⟩ ruleTwo [0, 0]).1
      mixOne rfl).1,
   (System_apply_rule_spec ⟨mixOne, [], some ()⟩ ruleTwo [0, 0]).2.2.2.1
      (by rfl),
   ((System_apply_rule_spec ⟨mixOne, [], some ()⟩ ruleTwo [0, 0]).2.2.2.2
      (by decide)).mp (by rfl)⟩

/-! ### Lemmas for the `apply_update` cache rebuild -/

/-- Inversion of a successful `Except` bind. -/
theorem except_bind_ok {α β : Type} {x : Except PyErr α}
    {f : α → Except PyErr β} {b : β} (h : x >>= f = .ok b) :
    ∃ a, x = .ok a ∧ f a = .ok b := by
  cases x with
  | error e => simp [Bind.bind, Except.bind] at h
  | ok a => exact ⟨a, rfl, by simpa [Bind.bind, Except.bind] using h⟩

/-- Lookup through an append tries the left list first. -/
theorem alookup_append {α β : Type} [BEq α] (l₁ l₂ : List (α × β)) (k : α) :
    alookup (l₁ ++ l₂) k =
      match alookup l₁ k with
      | some v => some v
      | none => alookup l₂ k := by
  unfold alookup
  rw [find?_append_cases]
  cases l₁.find? (fun p => p.1 == k) <;> simp

/-- `find?` through a value update at one key. -/
theorem find?_map_update {α β : Type} [BEq α] [LawfulBEq α]
    (l : List (α × β)) (k : α) (f : α × β → β) (k' : α) :
    (l.map (fun p => if p.1 == k then (p.1, f p) else p)).find?
        (fun p => p.1 == k') =
      if (k' == k) = true then
        (l.find? (fun p => p.1 == k)).map (fun p => (p.1, f p))
      else l.find? (fun p => p.1 == k') := by
  induction l with
  | nil => by_cases h : (k' == k) = true <;> simp [h]
  | cons a tl ih =>
    have hfst : ((if a.1 == k then (a.1, f a) else a) : α × β).1 = a.1 := by
      by_cases h2 : (a.1 == k) = true <;> simp [h2]
    rw [List.map_cons]
    by_cases hak : (a.1 == k') = true
    · have ha : a.1 = k' := eq_of_beq hak
      by_cases hk : (k' == k) = true
      · have hck : (a.1 == k) = true := by rw [ha]; exact hk
        rw [if_pos hk]
        rw [List.find?_cons_of_pos, List.find?_cons_of_pos]
        · simp [hck]
        · exact hck
        · rw [hfst]; exact hak
      · have hck : (a.1 == k) = false := by
          rw [ha]; exact Bool.eq_false_iff.mpr hk
        rw [if_neg hk]
        rw [List.find?_cons_of_pos, List.find?_cons_of_pos]
        · simp [hck]
        · exact hak
        · rw [hfst]; exact hak
    · rw [List.find?_cons_of_neg]
      · by_cases hk : (k' == k) = true
        · rw [if_pos hk] at ih ⊢
          have hck : (a.1 == k) = false := by
            rw [← eq_of_beq hk]; exact Bool.eq_false_iff.mpr hak
          rw [List.find?_cons_of_neg]
          · exact ih
          · simp [hck]
        · rw [if_neg hk] at ih ⊢
          rw [List.find?_cons_of_neg]
          · exact ih
          · exact hak
      · rw [hfst]; exact hak

/-- Lookup through a value update at one key. -/
theorem alookup_map_update {α β : Type} [BEq α] [LawfulBEq α]
    (l : List (α × β)) (k : α) (f : α × β → β) (k' : α) :
    alookup (l.map (fun p => if p.1 == k then (p.1, f p) else p)) k' =
      if (k' == k) = true then (l.find? (fun p => p.1 == k)).map f
      else alookup l k' := by
  unfold alookup
  rw [find?_map_update]
  by_cases h : (k' == k) = true
  · rw [if_pos h, if_pos h, Option.map_map]
    rfl
  · rw [if_neg h, if_neg h]

/-- Lookup past an appended fresh entry. -/
theorem alookup_append_fresh {β : Type} (l : List (Nat × β)) (k : Nat) (v : β)
    (hnone : alookup l k = none) (k' : Nat) :
    alookup (l ++ [(k, v)]) k' =
      if k' = k then some v else alookup l k' := by
  rw [alookup_append]
  cases h2 : alookup l k' with
  | some w =>
    by_cases hc : k' = k
    · rw [hc] at h2
      rw [h2] at hnone
      cases hnone
    · rw [if_neg hc]
  | none =>
    by_cases hc : k' = k
    · rw [if_pos hc, hc]
      simp [alookup]
    · rw [if_neg hc]
      have : alookup [(k, v)] k' = none := by
        simp [alookup, beq_eq_false_iff_ne.mpr (fun hh => hc hh.symm)]
      simp [this, h2]

/-- `bumpInner` appends to exactly the bucket of `pid`. -/
theorem bumpInner_get (inner : List (Nat × List Emb)) (pid : Nat) (e : Emb)
    (pid' : Nat) :
    (alookup (bumpInner inner pid e) pid').getD [] =
      if pid' = pid then (alookup inner pid).getD [] ++ [e]
      else (alookup inner pid').getD [] := by
  unfold bumpInner
  by_cases hs : (alookup inner pid).isSome = true
  · rw [if_pos hs, alookup_map_update]
    by_cases hp : pid' = pid
    · rw [if_pos (by simpa using hp), if_pos hp]
      cases hf : inner.find? (fun p => p.1 == pid) with
      | none => rw [alookup, hf] at hs; simp at hs
      | some v => simp [alookup, hf]
    · rw [if_neg (by simpa using hp), if_neg hp]
  · rw [if_neg hs]
    have hnone : alookup inner pid = none := by
      cases h : alookup inner pid
      · rfl
      · rw [h] at hs; simp at hs
    rw [alookup_append_fresh inner pid [e] hnone]
    by_cases hp : pid' = pid
    · rw [if_pos hp, if_pos hp, hnone]
      rfl
    · rw [if_neg hp, if_neg hp]

/-- `bumpBucket` appends to exactly the `(cid, pid)` bucket. -/
theorem bucketGet_bump (acc : List (Nat × List (Nat × List Emb)))
    (cid pid : Nat) (e : Emb) (cid' pid' : Nat) :
    bucketGet (bumpBucket acc cid pid e) cid' pid' =
      if cid' = cid ∧ pid' = pid then bucketGet acc cid pid ++ [e]
      else bucketGet acc cid' pid' := by
  unfold bumpBucket bucketGet
  by_cases hs : (alookup acc cid).isSome = true
  · rw [if_pos hs, alookup_map_update]
    by_cases hc : cid' = cid
    · rw [if_pos (by simpa using hc)]
      cases hf : acc.find? (fun p => p.1 == cid) with
      | none => rw [alookup, hf] at hs; simp at hs
      | some v =>
        have hvc : alookup acc cid = some v.2 := by
          rw [alookup, hf]
          rfl
        simp only [Option.map_some', Option.getD_some]
        rw [bumpInner_get]
        by_cases hp : pid' = pid
        · rw [if_pos hp, if_pos ⟨hc, hp⟩, hvc]
          rfl
        · rw [if_neg hp, if_neg (fun hh => hp hh.2), hc, hvc]
          rfl
    · rw [if_neg (by simpa using hc), if_neg (fun hh => hc hh.1)]
  · rw [if_neg hs]
    have hnone : alookup acc cid = none := by
      cases h : alookup acc cid
      · rfl
      · rw [h] at hs; simp at hs
    rw [alookup_append_fresh acc cid (bumpInner [] pid e) hnone]
    by_cases hc : cid' = cid
    · rw [if_pos hc]
      simp only [Option.getD_some]
      rw [bumpInner_get]
      by_cases hp : pid' = pid
      · rw [if_pos hp, if_pos ⟨hc, hp⟩, hnone]
        rfl
      · rw [if_neg hp, if_neg (fun hh => hp hh.2), hc, hnone]
        rfl
    · rw [if_neg hc, if_neg (fun hh => hc hh.1)]

/-- `addEmbsToByComp` distributes the embeddings of one pattern over the
buckets of their root components, touching no other pattern's buckets. -/
theorem addEmbsToByComp_get (ci : List (Nat × Nat)) (pid : Nat) :
    ∀ (embs : List Emb) (acc acc' : List (Nat × List (Nat × List Emb))),
    addEmbsToByComp ci pid embs acc = .ok acc' →
    ∀ cid' pid', bucketGet acc' cid' pid' =
      if pid' = pid then
        bucketGet acc cid' pid' ++
          embs.filter (fun e => rootCidCore ci e == some cid')
      else bucketGet acc cid' pid' := by
  intro embs
  induction embs with
  | nil =>
    intro acc acc' h cid' pid'
    unfold addEmbsToByComp at h
    injection h with h
    subst h
    by_cases hp : pid' = pid <;> simp [hp]
  | cons e rest ih =>
    intro acc acc' h cid' pid'
    unfold addEmbsToByComp at h
    split at h
    · simp at h
    · next kv hhead =>
      split at h
      · simp at h
      · next cide hcide =>
        have hr : rootCidCore ci e = some cide := by
          unfold rootCidCore
          rw [hhead, Option.some_bind, hcide]
        have hrec := ih (bumpBucket acc cide pid e) acc' h cid' pid'
        simp only [List.filter_cons]
        by_cases hp : pid' = pid
        · subst hp
          rw [if_pos rfl] at hrec
          rw [if_pos rfl, hrec, bucketGet_bump]
          simp only [hr]
          by_cases hcc : cid' = cide
          · rw [if_pos ⟨hcc, by trivial⟩]
            have hbt : ((some cide == some cid') : Bool) = true := by
              rw [hcc]; exact beq_self_eq_true _
            simp [hbt, hcc, List.append_assoc]
          · rw [if_neg (fun hh => hcc hh.1)]
            have hbf : ((some cide == some cid') : Bool) = false := by
              rw [beq_eq_false_iff_ne]
              intro hh
              exact hcc (Option.some.inj hh).symm
            simp [hbf]
        · rw [if_neg hp] at hrec
          rw [if_neg hp, hrec, bucketGet_bump, if_neg (fun hh => hp hh.2)]

/-- `setLink` only rewrites the heap. -/
theorem setLink_matchCache {m m' : MixtureM} {r : SiteRef} {l : LinkStateP}
    (h : m.setLink r l = .ok m') : m'.matchCache = m.matchCache := by
  unfold MixtureM.setLink at h
  split at h
  · cases h
  · split at h
    · cases h
    · injection h with h
      subst h
      rfl

/-- `_remove_edge` does not touch `match_cache`. -/
theorem remove_edge_matchCache {m m' : MixtureM} {e : EdgeM}
    (h : m._remove_edge e = .ok m') : m'.matchCache = m.matchCache := by
  unfold MixtureM._remove_edge at h
  split at h
  next x1 x2 l1 l2 hg1 hg2 =>
    split at h
    next => exact absurd h (by simp)
    next hcond =>
      split at h
      next => exact absurd h (by simp)
      next x m1 hs1 =>
        split at h
        next => exact absurd h (by simp)
        next y m2 hs2 =>
          split at h
          next o1 o2 c1 c2 hc1 hc2 =>
            split at h
            next => exact absurd h (by simp)
            next hcc =>
              by_cases hmem : e.site2.agentId ∈
                  depth_first_traversal m2.heap e.site1.agentId
              · rw [if_pos hmem] at h
                injection h with h
                subst h
                have h2 := setLink_matchCache hs2
                have h1 := setLink_matchCache hs1
                exact h2.trans h1
              · rw [if_neg hmem] at h
                injection h with h
                subst h
                have h2 := setLink_matchCache hs2
                have h1 := setLink_matchCache hs1
                exact h2.trans h1
          next => exact absurd h (by simp)
  next => exact absurd h (by simp)
  next => exact absurd h (by simp)

/-- `_remove_agent` does not touch `match_cache`. -/
theorem remove_agent_matchCache {m m' : MixtureM} {aid : Nat}
    (h : m._remove_agent aid = .ok m') : m'.matchCache = m.matchCache := by
  unfold MixtureM._remove_agent at h
  repeat' split at h
  all_goals simp only [reduceCtorEq, Except.ok.injEq] at h
  all_goals subst h
  all_goals rfl

/-- `_add_agent` does not touch `match_cache`. -/
theorem add_agent_matchCache {m m' : MixtureM} {aid : Nat} {ag : AgentP}
    (h : m._add_agent aid ag = .ok m') : m'.matchCache = m.matchCache := by
  unfold MixtureM._add_agent at h
  repeat' split at h
  all_goals simp only [reduceCtorEq, Except.ok.injEq] at h
  all_goals subst h
  all_goals rfl

/-- `_add_edge` does not touch `match_cache`. -/
theorem add_edge_matchCache {m m' : MixtureM} {e : EdgeM}
    (h : m._add_edge e = .ok m') : m'.matchCache = m.matchCache := by
  unfold MixtureM._add_edge at h
  split at h
  next => exact absurd h (by simp)
  next hcond =>
    split at h
    next => exact absurd h (by simp)
    next x m1 hs1 =>
      split at h
      next => exact absurd h (by simp)
      next y m2 hs2 =>
        split at h
        next o1 o2 c1 c2 hc1 hc2 =>
          split at h
          next hcc =>
            injection h with h
            subst h
            have h2 := setLink_matchCache hs2
            have h1 := setLink_matchCache hs1
            exact h2.trans h1
          next hcc =>
            split at h
            next => exact absurd h (by simp)
            next z comp2 hcomp =>
              injection h with h
              subst h
              have h2 := setLink_matchCache hs2
              have h1 := setLink_matchCache hs1
              exact h2.trans h1
        next => exact absurd h (by simp)

/-- `foldlM` over a cache-preserving step preserves `match_cache`. -/
theorem foldlM_matchCache {α : Type} (f : MixtureM → α → Except PyErr MixtureM)
    (hf : ∀ m a m', f m a = .ok m' → m'.matchCache = m.matchCache) :
    ∀ (l : List α) (m m' : MixtureM), l.foldlM f m = .ok m' →
      m'.matchCache = m.matchCache := by
  intro l
  induction l with
  | nil =>
    intro m m' h
    rw [List.foldlM_nil] at h
    have hpure : (pure m : Except PyErr MixtureM) = .ok m := rfl
    rw [hpure] at h
    injection h with h
    rw [h]
  | cons a tl ih =>
    intro m m' h
    rw [List.foldlM_cons] at h
    obtain ⟨m₁, h₁, h₂⟩ := except_bind_ok h
    rw [ih m₁ m' h₂, hf m a m₁ h₁]

/-- The cache half of the rebuild: the tracked patterns are kept, in order,
and every stored embedding list is the from-scratch enumeration over the
rebuild's graph. -/
theorem rebuildGo_cache (heap : List (Nat × AgentP))
    (abt : List (String × List Nat)) (ci : List (Nat × Nat)) :
    ∀ (entries cacheAcc : List (ComponentPat × List Emb))
      (bcAcc : List (Nat × List (Nat × List Emb)))
      (cache : List (ComponentPat × List Emb))
      (bc : List (Nat × List (Nat × List Emb))),
    rebuildGo heap abt ci entries cacheAcc bcAcc = .ok (cache, bc) →
    cache.map (fun q => q.1) =
        cacheAcc.map (fun q => q.1) ++ entries.map (fun q => q.1) ∧
    ∀ pe ∈ cache, pe ∈ cacheAcc ∨
      findEmbeddingsCore heap abt pe.1 = .ok pe.2 := by
  intro entries
  induction entries with
  | nil =>
    intro cacheAcc bcAcc cache bc h
    unfold rebuildGo at h
    injection h with h
    injection h with h1 h2
    subst h1
    exact ⟨by simp, fun pe hpe => Or.inl hpe⟩
  | cons entry rest ih =>
    intro cacheAcc bcAcc cache bc h
    unfold rebuildGo at h
    split at h
    · cases h
    · next embs hfind =>
      split at h
      · cases h
      · next bcAcc' hadd =>
        obtain ⟨hkeys, hmem⟩ := ih (cacheAcc ++ [(entry.1, embs)]) bcAcc'
          cache bc h
        constructor
        · rw [hkeys, List.map_append]
          simp [List.append_assoc]
        · intro pe hpe
          rcases hmem pe hpe with hin | hok
          · rcases List.mem_append.mp hin with hl | hr
            · exact Or.inl hl
            · rw [List.mem_singleton] at hr
              subst hr
              exact Or.inr hfind
          · exact Or.inr hok

/-- The bucket half of the rebuild: with duplicate-free tracked pattern ids,
each pattern's bucket under each component id collects exactly its
embeddings rooted in that component, and untracked pattern ids keep their
incoming (empty) buckets. -/
theorem rebuildGo_buckets (heap : List (Nat × AgentP))
    (abt : List (String × List Nat)) (ci : List (Nat × Nat)) :
    ∀ (entries cacheAcc : List (ComponentPat × List Emb))
      (bcAcc : List (Nat × List (Nat × List Emb)))
      (cache : List (ComponentPat × List Emb))
      (bc : List (Nat × List (Nat × List Emb))),
    rebuildGo heap abt ci entries cacheAcc bcAcc = .ok (cache, bc) →
    (entries.map (fun q => q.1.pid)).Nodup →
    (∀ pid, pid ∉ entries.map (fun q => q.1.pid) →
      ∀ cid, bucketGet bc cid pid = bucketGet bcAcc cid pid) ∧
    (∀ pat embs₀ embs, (pat, embs₀) ∈ entries →
      findEmbeddingsCore heap abt pat = .ok embs →
      ∀ cid, bucketGet bc cid pat.pid =
        bucketGet bcAcc cid pat.pid ++
          embs.filter (fun e => rootCidCore ci e == some cid)) := by
  intro entries
  induction entries with
  | nil =>
    intro cacheAcc bcAcc cache bc h _
    unfold rebuildGo at h
    injection h with h
    injection h with h1 h2
    subst h2
    exact ⟨fun pid _ cid => rfl,
      fun pat embs₀ embs hmem => absurd hmem (by simp)⟩
  | cons entry rest ih =>
    intro cacheAcc bcAcc cache bc h hnd
    unfold rebuildGo at h
    split at h
    · cases h
    · next embs hfind =>
      split at h
      · cases h
      · next bcAcc' hadd =>
        rw [List.map_cons, List.nodup_cons] at hnd
        obtain ⟨hnotin, hnd'⟩ := hnd
        obtain ⟨iha, ihb⟩ := ih (cacheAcc ++ [(entry.1, embs)]) bcAcc'
          cache bc h hnd'
        have hbump := addEmbsToByComp_get ci entry.1.pid embs bcAcc bcAcc' hadd
        constructor
        · intro pid hpid cid
          simp only [List.map_cons, List.mem_cons] at hpid
          push_neg at hpid
          rw [iha pid hpid.2 cid, hbump cid pid, if_neg hpid.1]
        · intro pat embs₀ embs' hmem hfind' cid
          rcases List.mem_cons.mp hmem with heq | htl
          · have hpat : pat = entry.1 := congrArg Prod.fst heq
            rw [hpat] at hfind'
            rw [hfind'] at hfind
            injection hfind with hembs
            rw [hpat, iha entry.1.pid hnotin cid, hbump cid entry.1.pid,
              if_pos rfl, hembs]
          · have hpid_ne : pat.pid ≠ entry.1.pid := by
              intro hcontra
              exact hnotin
                (hcontra ▸ List.mem_map_of_mem (fun q => q.1.pid) htl)
            rw [ihb pat embs₀ embs' htl hfind' cid, hbump cid pat.pid,
              if_neg hpid_ne]

/-- With duplicate-free pattern ids, `find?` by pattern id retrieves the
member entry. -/
theorem find?_pid_of_mem :
    ∀ (l : List (ComponentPat × List Emb)),
    (l.map (fun q => q.1.pid)).Nodup →
    ∀ (pat : ComponentPat) (embs : List Emb), (pat, embs) ∈ l →
    l.find? (fun q => q.1.pid == pat.pid) = some (pat, embs) := by
  intro l
  induction l with
  | nil =>
    intro _ pat embs hmem
    cases hmem
  | cons a tl ih =>
    intro hnd pat embs hmem
    rw [List.map_cons, List.nodup_cons] at hnd
    obtain ⟨hnotin, hnd'⟩ := hnd
    rcases List.mem_cons.mp hmem with heq | htl
    · subst heq
      rw [List.find?_cons_of_pos]
      simp
    · have hne : (a.1.pid == pat.pid) = false := by
        rw [beq_eq_false_iff_ne]
        intro hcontra
        apply hnotin
        rw [hcontra]
        exact List.mem_map_of_mem (fun q => q.1.pid) htl
      rw [List.find?_cons_of_neg]
      · exact ih hnd' pat embs htl
      · simp [hne]

/-! ### The component invariant of the embedding search -/

/-- `findSiteLoop` only ever maps new pattern agents onto link-neighbours of
the current host agent, so under `wfLinksCore` every image stays in the
component of the existing images; the partial embedding grows by
appending. -/
theorem findSiteLoop_inv (heap : List (Nat × AgentP)) (ci : List (Nat × Nat))
    (wf : wfLinksCore heap ci) (bAg : AgentP) (bId : Nat)
    (hb : alookup heap bId = some bAg) (cref : Option Nat)
    (hcb : alookup ci bId = cref) :
    ∀ (sites : List SiteP) (amap : Emb) (frontier : List Nat)
      (amap' : Emb) (frontier' : List Nat),
      findSiteLoop heap bAg sites amap frontier = .ok (some (amap', frontier')) →
      (∀ kv ∈ amap, alookup ci kv.2 = cref) →
      (∀ kv ∈ amap', alookup ci kv.2 = cref) ∧ ∃ ext, amap' = amap ++ ext := by
  intro sites
  induction sites with
  | nil =>
    intro amap frontier amap' frontier' h hkv
    unfold findSiteLoop at h
    simp only [Except.ok.injEq, Option.some.injEq, Prod.mk.injEq] at h
    obtain ⟨h1, h2⟩ := h
    subst h1
    exact ⟨hkv, [], by simp⟩
  | cons aSite rest ih =>
    intro amap frontier amap' frontier' h hkv
    unfold findSiteLoop at h
    split at h
    · simp at h
    · split at h
      · exact absurd h (by simp)
      · next bSite hbs =>
        split at h
        · -- internal state: wildcard
          split at h
          · exact ih _ _ _ _ h hkv
          · exact ih _ _ _ _ h hkv
          · split at h
            · exact ih _ _ _ _ h hkv
            · simp at h
          · split at h
            · exact ih _ _ _ _ h hkv
            · simp at h
          · split at h
            · split at h
              · exact absurd h (by simp)
              · split at h
                · simp at h
                · exact ih _ _ _ _ h hkv
            · simp at h
          · rename_i aPartner haP
            split at h
            · rename_i bPartner hbl
              split at h
              · split at h
                · simp at h
                · exact ih _ _ _ _ h hkv
              · rename_i v hnone
                have hmem : bSite ∈ bAg.sites := List.mem_of_find?_eq_some hbs
                have hci : alookup ci bPartner.agentId = cref := by
                  rw [← wf bId bAg hb bSite hmem bPartner hbl]
                  exact hcb
                have hkv' : ∀ kv ∈ amap ++ [(aPartner.agentId, bPartner.agentId)],
                    alookup ci kv.2 = cref := by
                  intro kv hkvm
                  rcases List.mem_append.mp hkvm with hl | hr
                  · exact hkv kv hl
                  · rw [List.mem_singleton] at hr
                    subst hr
                    exact hci
                obtain ⟨hall, ext, hext⟩ := ih _ _ _ _ h hkv'
                refine ⟨hall, (aPartner.agentId, bPartner.agentId) :: ext, ?_⟩
                rw [hext, List.append_assoc]
                rfl
            · simp at h
        · -- internal state: undetermined
          split at h
          · exact ih _ _ _ _ h hkv
          · exact ih _ _ _ _ h hkv
          · split at h
            · exact ih _ _ _ _ h hkv
            · simp at h
          · split at h
            · exact ih _ _ _ _ h hkv
            · simp at h
          · split at h
            · split at h
              · exact absurd h (by simp)
              · split at h
                · simp at h
                · exact ih _ _ _ _ h hkv
            · simp at h
          · rename_i aPartner haP
            split at h
            · rename_i bPartner hbl
              split at h
              · split at h
                · simp at h
                · exact ih _ _ _ _ h hkv
              · rename_i v hnone
                have hmem : bSite ∈ bAg.sites := List.mem_of_find?_eq_some hbs
                have hci : alookup ci bPartner.agentId = cref := by
                  rw [← wf bId bAg hb bSite hmem bPartner hbl]
                  exact hcb
                have hkv' : ∀ kv ∈ amap ++ [(aPartner.agentId, bPartner.agentId)],
                    alookup ci kv.2 = cref := by
                  intro kv hkvm
                  rcases List.mem_append.mp hkvm with hl | hr
                  · exact hkv kv hl
                  · rw [List.mem_singleton] at hr
                    subst hr
                    exact hci
                obtain ⟨hall, ext, hext⟩ := ih _ _ _ _ h hkv'
                refine ⟨hall, (aPartner.agentId, bPartner.agentId) :: ext, ?_⟩
                rw [hext, List.append_assoc]
                rfl
            · simp at h
        · -- internal state: concrete tag
          split at h
          all_goals simp only [] at h
          · split at h
            · simp at h
            · exact ih _ _ _ _ h hkv
          · split at h
            · simp at h
            · exact ih _ _ _ _ h hkv
          · split at h
            · simp at h
            · split at h
              · exact ih _ _ _ _ h hkv
              · simp at h
          · split at h
            · simp at h
            · split at h
              · exact ih _ _ _ _ h hkv
              · simp at h
          · split at h
            · simp at h
            · split at h
              · split at h
                · exact absurd h (by simp)
                · split at h
                  · simp at h
                  · exact ih _ _ _ _ h hkv
              · simp at h
          · rename_i aPartner haP
            split at h
            · simp at h
            · split at h
              · rename_i bPartner hbl
                split at h
                · split at h
                  · simp at h
                  · exact ih _ _ _ _ h hkv
                · rename_i v hnone
                  have hmem : bSite ∈ bAg.sites := List.mem_of_find?_eq_some hbs
                  have hci : alookup ci bPartner.agentId = cref := by
                    rw [← wf bId bAg hb bSite hmem bPartner hbl]
                    exact hcb
                  have hkv' : ∀ kv ∈ amap ++ [(aPartner.agentId, bPartner.agentId)],
                      alookup ci kv.2 = cref := by
                    intro kv hkvm
                    rcases List.mem_append.mp hkvm with hl | hr
                    · exact hkv kv hl
                    · rw [List.mem_singleton] at hr
                      subst hr
                      exact hci
                  obtain ⟨hall, ext, hext⟩ := ih _ _ _ _ h hkv'
                  refine ⟨hall, (aPartner.agentId, bPartner.agentId) :: ext, ?_⟩
                  rw [hext, List.append_assoc]
                  rfl
              · simp at h

/-- The BFS of `find_embeddings` keeps every image in the component of the
images already present; the embedding grows by appending, so its first
entry — the root's image — is preserved. -/
theorem findBFS_inv (heap patHeap : List (Nat × AgentP))
    (ci : List (Nat × Nat)) (wf : wfLinksCore heap ci) (cref : Option Nat) :
    ∀ (fuel : Nat) (frontier : List Nat) (amap : Emb) (amap' : Emb),
      findBFS heap patHeap fuel frontier amap = .ok (some amap') →
      (∀ kv ∈ amap, alookup ci kv.2 = cref) →
      (∀ kv ∈ amap', alookup ci kv.2 = cref) ∧ ∃ ext, amap' = amap ++ ext := by
  intro fuel
  induction fuel with
  | zero =>
    intro frontier amap amap' h hkv
    unfold findBFS at h
    split at h
    · simp only [Except.ok.injEq, Option.some.injEq] at h
      subst h
      exact ⟨hkv, [], by simp⟩
    · exact absurd h (by simp)
  | succ fuel ih =>
    intro frontier amap amap' h hkv
    cases frontier with
    | nil =>
      unfold findBFS at h
      simp only [Except.ok.injEq, Option.some.injEq] at h
      subst h
      exact ⟨hkv, [], by simp⟩
    | cons a fr =>
      unfold findBFS at h
      split at h
      · next bId aAg hma hpa =>
        split at h
        · exact absurd h (by simp)
        · next bAg hb =>
          split at h
          · simp at h
          · split at h
            · exact absurd h (by simp)
            · simp at h
            · next amap₁ frontier₁ hsl =>
              have hbid : alookup ci bId = cref := by
                cases hf : amap.find? (fun p => p.1 == a) with
                | none =>
                  rw [alookup, hf] at hma
                  cases hma
                | some p =>
                  rw [alookup, hf] at hma
                  injection hma with hma
                  rw [← hma]
                  exact hkv p (List.mem_of_find?_eq_some hf)
              obtain ⟨hall₁, ext₁, hext₁⟩ :=
                findSiteLoop_inv heap ci wf bAg bId hb cref hbid
                  aAg.sites amap fr amap₁ frontier₁ hsl hkv
              obtain ⟨hall, ext₂, hext₂⟩ := ih frontier₁ amap₁ amap' h hall₁
              refine ⟨hall, ext₁ ++ ext₂, ?_⟩
              rw [hext₂, hext₁, List.append_assoc]
      · exact absurd h (by simp)

/-- Each embedding returned by the root loop maps every pattern agent into
the component of the root's image. -/
theorem findRoots_inv (heap : List (Nat × AgentP)) (ci : List (Nat × Nat))
    (wf : wfLinksCore heap ci) (pat : ComponentPat) (aRootId : Nat) :
    ∀ (roots : List Nat) (embs : List Emb),
      findRoots heap pat aRootId roots = .ok embs →
      ∀ e ∈ embs, ∀ kv ∈ e, alookup ci kv.2 = rootCidCore ci e := by
  intro roots
  induction roots with
  | nil =>
    intro embs h e he kv hkv
    unfold findRoots at h
    injection h with h
    rw [← h] at he
    cases he
  | cons bRoot rest ih =>
    intro embs h e he kv hkv
    unfold findRoots at h
    split at h
    · exact absurd h (by simp)
    · next r hbfs =>
      split at h
      · exact absurd h (by simp)
      · next rest' hrest =>
        split at h
        · next amap =>
          injection h with h
          rw [← h] at he
          rcases List.mem_cons.mp he with heq | htl
          · subst heq
            have hinit : ∀ kv ∈ ([(aRootId, bRoot)] : Emb),
                alookup ci kv.2 = alookup ci bRoot := by
              intro kv hkvm
              rw [List.mem_singleton] at hkvm
              subst hkvm
              rfl
            obtain ⟨hall, ext, hext⟩ :=
              findBFS_inv heap pat.agents ci wf (alookup ci bRoot)
                (pat.agents.length + 1) [aRootId] [(aRootId, bRoot)] e
                hbfs hinit
            have hhead : e.head? = some (aRootId, bRoot) := by
              rw [hext]
              rfl
            have hroot : rootCidCore ci e = alookup ci bRoot := by
              unfold rootCidCore
              rw [hhead, Option.some_bind]
            rw [hroot]
            exact hall kv hkv
          · exact ih rest' hrest e htl kv hkv
        · injection h with h
          rw [← h] at he
          exact ih rest' hrest e he kv hkv

/-- `Mixture.find_embeddings` maps every pattern agent of every returned
embedding into the component of the embedding's root image. -/
theorem findEmbeddingsCore_inv (heap : List (Nat × AgentP))
    (abt : List (String × List Nat)) (ci : List (Nat × Nat))
    (wf : wfLinksCore heap ci) (pat : ComponentPat) (embs : List Emb)
    (h : findEmbeddingsCore heap abt pat = .ok embs) :
    ∀ e ∈ embs, ∀ kv ∈ e, alookup ci kv.2 = rootCidCore ci e := by
  unfold findEmbeddingsCore at h
  split at h
  · exact absurd h (by simp)
  · next aRootId aRoot hhead =>
    exact findRoots_inv heap ci wf pat aRootId _ embs h

/-- C1: after a successful `apply_update` — with the tracked patterns
pairwise distinct, as the identity-keyed `match_cache` dict guarantees —
the tracked pattern set is unchanged, and for every tracked pattern `P`:
the stored embedding list equals the from-scratch enumeration over the
post-update mixture and is what `fetch_embeddings` returns; the
per-mixture-component index returns, under every mixture component,
exactly the stored embeddings whose root image lies in that component; and
under the link/component well-formedness invariant every host agent of
such an embedding lies in that same root component. -/
theorem apply_update_cache_roundtrip (m : MixtureM) (u : MixtureUpdateM)
    (m₂ : MixtureM) (hap : m.apply_update u = .ok m₂)
    (hnd : (m.matchCache.map (fun q => q.1.pid)).Nodup) :
    m₂.matchCache.map (fun q => q.1) = m.matchCache.map (fun q => q.1) ∧
    ∀ pat embs, (pat, embs) ∈ m₂.matchCache →
      m₂.find_embeddings pat = .ok embs ∧
      m₂.fetch_embeddings pat = embs ∧
      (∀ c : Comp, m₂.fetch_embeddings_in_component pat c =
        embs.filter (fun e => rootCid m₂ e == some c.cid)) ∧
      (wfLinks m₂ → ∀ e ∈ embs, ∀ kv ∈ e,
        alookup m₂.componentIndex kv.2 = rootCid m₂ e) := by
  unfold MixtureM.apply_update at hap
  obtain ⟨m1, h1, hap⟩ := except_bind_ok hap
  obtain ⟨mm2, h2, hap⟩ := except_bind_ok hap
  obtain ⟨m3, h3, hap⟩ := except_bind_ok hap
  obtain ⟨m4, h4, hap⟩ := except_bind_ok hap
  have hmc4 : m4.matchCache = m.matchCache := by
    rw [foldlM_matchCache _ (fun x a y hy => add_edge_matchCache hy) _ _ _ h4,
      foldlM_matchCache _ (fun x a y hy => add_agent_matchCache hy) _ _ _ h3,
      foldlM_matchCache _ (fun x a y hy => remove_agent_matchCache hy) _ _ _ h2,
      foldlM_matchCache _ (fun x a y hy => remove_edge_matchCache hy) _ _ _ h1]
  unfold MixtureM.rebuildCaches at hap
  split at hap
  · exact absurd hap (by simp)
  · rename_i cache byComp heq
    injection hap with hap
    subst hap
    have hndE : (m4.matchCache.map (fun q => q.1.pid)).Nodup := by
      rw [hmc4]
      exact hnd
    obtain ⟨hkeys, hmem⟩ :=
      rebuildGo_cache m4.heap m4.agentsByType m4.componentIndex
        m4.matchCache [] [] cache byComp heq
    simp only [List.map_nil, List.nil_append] at hkeys
    obtain ⟨hbA, hbB⟩ :=
      rebuildGo_buckets m4.heap m4.agentsByType m4.componentIndex
        m4.matchCache [] [] cache byComp heq hndE
    have hpids : cache.map (fun q => q.1.pid) =
        m4.matchCache.map (fun q => q.1.pid) := by
      have h' := congrArg (List.map (fun p : ComponentPat => p.pid)) hkeys
      rw [List.map_map, List.map_map] at h'
      exact h'
    have hcnd : (cache.map (fun q => q.1.pid)).Nodup := by
      rw [hpids]
      exact hndE
    refine ⟨?_, ?_⟩
    · show cache.map (fun q => q.1) = m.matchCache.map (fun q => q.1)
      rw [hkeys, hmc4]
    · intro pat embs hpe
      have hpc : (pat, embs) ∈ cache := hpe
      have hok : findEmbeddingsCore m4.heap m4.agentsByType pat = .ok embs := by
        rcases hmem (pat, embs) hpc with hin | hok
        · cases hin
        · exact hok
      refine ⟨hok, ?_, ?_, ?_⟩
      · have hfind := find?_pid_of_mem cache hcnd pat embs hpc
        show ((cache.find? (fun q => q.1.pid == pat.pid)).map
          (fun q => q.2)).getD [] = embs
        rw [hfind]
        rfl
      · intro c
        show bucketGet byComp c.cid pat.pid =
          embs.filter (fun e =>
            rootCidCore m4.componentIndex e == some c.cid)
        have hkmem : pat ∈ m4.matchCache.map (fun q => q.1) := by
          rw [← hkeys]
          exact List.mem_map_of_mem _ hpc
        obtain ⟨q, hq, hq1⟩ := List.mem_map.mp hkmem
        have hqmem : (pat, q.2) ∈ m4.matchCache := by
          rw [← hq1]
          exact hq
        rw [hbB pat q.2 embs hqmem hok c.cid]
        rfl
      · intro hwf e he kv hkv
        exact findEmbeddingsCore_inv m4.heap m4.agentsByType
          m4.componentIndex hwf pat embs hok e he kv hkv

/-- C1 witness: the one-agent mixture with two tracked one-agent patterns,
updated by the empty update — the rebuild recomputes both cached embedding
lists and groups them under component 0. -/
theorem apply_update_cache_roundtrip_witness :
    (mixOneReb.matchCache.map (fun q => q.1) =
      mixOne.matchCache.map (fun q => q.1)) ∧
    ∀ pat embs, (pat, embs) ∈ mixOneReb.matchCache →
      mixOneReb.find_embeddings pat = .ok embs ∧
      mixOneReb.fetch_embeddings pat = embs ∧
      (∀ c : Comp, mixOneReb.fetch_embeddings_in_component pat c =
        embs.filter (fun e => rootCid mixOneReb e == some c.cid)) ∧
      (wfLinks mixOneReb → ∀ e ∈ embs, ∀ kv ∈ e,
        alookup mixOneReb.componentIndex kv.2 = rootCid mixOneReb e) :=
  apply_update_cache_roundtrip mixOne MixtureUpdateM.empty mixOneReb
    (by rfl) (by decide)

end Kappybara
